import Mathlib

/-!
Verification of the reconciliation engine of `artbase-data-processor`.

This file gives a shallow embedding of the core of the repository:

* `src/utils/date.ts` — `areDatesEqual`, the date-change detector;
* `src/services/museum.service.ts` — `buildMuseumMaps`, the venue registry maps;
* `src/services/exhibition.service.ts` (batched version, the one exercised by
  `exhibition.service.test.ts`) — `normalizeVenue`, `getMuseumId`,
  `processExhibitionBatch`, `processScrapeResults`;
* the older per-record variant of `processExhibition` / `processScrapeResults`
  (the non-transactional implementation that fetches the whole `exhibition`
  collection up front), used for the refinement-equivalence claim.

Modelling conventions:

* Firestore `Timestamp` values are modelled as `Int` epoch seconds (documents
  written by this code always carry zero nanoseconds, and `Timestamp.isEqual`
  on such values is plain equality of the seconds).
* A JavaScript runtime value sitting in a document's date field is modelled by
  `DateVal`: a timestamp, a string (the older engine persists absent dates as
  `''`), or `missing` (the field is absent / reads back as `undefined`).
* `string | null | undefined` inputs are modelled as `Option String`, with
  `none` standing for both `null` and `undefined`; JavaScript truthiness of
  such a value additionally treats `some ""` as falsy, which `jsTruthy` makes
  explicit.
* JavaScript `Map` objects are modelled as association lists in which the most
  recent binding for a key is consed to the front; `mapGet` returns the first
  (i.e. latest) binding, so `mapSet`/`mapGet` have exactly the observable
  `Map.set`/`Map.get` semantics.
* Exceptions that the source code can throw and catch are modelled with
  `Except String`; a `try/catch` block in the source corresponds to matching
  on the `Except` value.
-/

/-- A JavaScript value stored in a Firestore date field at runtime: a
`Timestamp` (epoch seconds), a string (the older per-record engine writes
`''` for absent dates), or `missing` for an absent field (which reads back
as `undefined`). -/
inductive DateVal where
  | ts (t : Int)
  | str (s : String)
  | missing
deriving DecidableEq, Repr

/-- JavaScript truthiness of a `string | null | undefined` value: `null`,
`undefined` and `''` are falsy, every other string is truthy. -/
def jsTruthy : Option String → Bool
  | none => false
  | some s => !(s == "")

/-- Parse a `yyyy-mm-dd` calendar date string into its numeric components
(components that fail to parse are read as `0`; the claims only exercise
well-formed date strings). -/
def parseYmd (s : String) : Int × Int × Int :=
  match (s.splitOn "-").map (fun c => ((c.toNat?).getD 0 : Int)) with
  | [y, m, d] => (y, m, d)
  | _ => (0, 0, 0)

/-- Days since the Unix epoch of a proleptic-Gregorian civil date
(the standard days-from-civil computation). -/
def daysFromCivil (y m d : Int) : Int :=
  let y' := if m ≤ 2 then y - 1 else y
  let era := (if 0 ≤ y' then y' else y' - 399) / 400
  let yoe := y' - era * 400
  let mp := (m + 9) % 12
  let doy := (153 * mp + 2) / 5 + d - 1
  let doe := yoe * 365 + yoe / 4 - yoe / 100 + doy
  era * 146097 + doe - 719468

/-- Epoch seconds of `00:00` of the given `yyyy-mm-dd` date in the
`Asia/Tokyo` timezone (UTC+9, no daylight saving): this is the instant
`Timestamp.fromDate(new TZDate(s, 'Asia/Tokyo'))` denotes. -/
def tokyoMidnight (s : String) : Int :=
  let (y, m, d) := parseYmd s
  daysFromCivil y m d * 86400 - 9 * 3600

/-- The conversion applied to the incoming date by `areDatesEqual`
(`src/utils/date.ts` line 16): a truthy incoming string is converted to the
Tokyo-midnight instant, a falsy one (absent, `null`, or `''`) becomes
`undefined`, modelled as `none`. -/
def convertIncoming (incoming : Option String) : Option Int :=
  match incoming with
  | some s => if s = "" then none else some (tokyoMidnight s)
  | none => none

/-- `areDatesEqual` from `src/utils/date.ts`, modelled on the JavaScript
runtime domain of its first argument (the declared type is
`Timestamp | undefined`, but the repository's older engine persists `''`
strings in date fields, and the function is applied to whatever the store
holds).  The source checks `existing === undefined` twice and then calls
`existing.isEqual(incomingDate)`; on a string value that last call throws a
`TypeError`, modelled as `.error`. -/
def areDatesEqual (existing : DateVal) (incoming : Option String) :
    Except String Bool :=
  match existing, convertIncoming incoming with
  | .missing, none => .ok true
  | .missing, some _ => .ok false
  | _, none => .ok false
  | .ts t, some u => .ok (decide (t = u))
  | .str _, some _ => .error "TypeError: existing.isEqual is not a function"

/-- A stored date value that the declared TypeScript type of `areDatesEqual`
admits: a `Timestamp` or `undefined`, never a string. -/
def DateVal.wf : DateVal → Bool
  | .str _ => false
  | _ => true

/-- The restriction of `areDatesEqual` to well-formed stored values, where it
is total; `areDatesEqual_wf` proves the agreement. -/
def datesEqWf (existing : DateVal) (incoming : Option String) : Bool :=
  match existing, convertIncoming incoming with
  | .missing, none => true
  | .missing, some _ => false
  | _, none => false
  | .ts t, some u => decide (t = u)
  | .str _, some _ => false

/-! ## JavaScript `Map` model -/

/-- Model of a JavaScript `Map<string, α>`: an association list where the most
recent binding of a key shadows older ones. -/
abbrev JsMap (α : Type) := List (String × α)

/-- `Map.get`, returning the latest binding (or `none`). -/
def mapGet {α : Type} (m : JsMap α) (k : String) : Option α :=
  (m.find? (fun p => p.1 = k)).map (·.2)

/-- `Map.set`: the new binding shadows any earlier binding of the key. -/
def mapSet {α : Type} (m : JsMap α) (k : String) (v : α) : JsMap α :=
  (k, v) :: m

/-! ## Museum registry (`src/services/museum.service.ts`) -/

/-- The fields of a `Museum` consumed by `buildMuseumMaps` (`id`, `name`,
`aliases`); the remaining schema fields (`address`, `access`,
`openingInformation`, `officialUrl`, `scrapeUrl`, `scrapeEnabled`,
`venueType`, `area`) are never read by the map construction and are omitted
from the model. -/
structure Museum where
  id : String
  name : String
  aliases : Option (List String)
deriving DecidableEq, Repr

/-- The two derived lookup maps (`src/types/museum.ts`). -/
structure MuseumMaps where
  aliasToName : JsMap String
  nameToId : JsMap String
deriving DecidableEq, Repr

/-- One iteration of the `buildMuseumMaps` loop body. -/
def buildMuseumMapsStep (maps : MuseumMaps) (museum : Museum) : MuseumMaps :=
  let nameToId := mapSet maps.nameToId museum.name museum.id
  let aliasToName := mapSet maps.aliasToName museum.name museum.name
  let aliasToName :=
    match museum.aliases with
    | some as => as.foldl (fun m a => mapSet m a museum.name) aliasToName
    | none => aliasToName
  ⟨aliasToName, nameToId⟩

/-- `buildMuseumMaps` from `src/services/museum.service.ts`. -/
def buildMuseumMaps (museums : List Museum) : MuseumMaps :=
  museums.foldl buildMuseumMapsStep ⟨[], []⟩

/-- `normalizeVenue` (`exhibition.service.ts`): alias-or-name lookup,
`undefined ?? null` modelled as `none`. -/
def normalizeVenue (venue : String) (museumMaps : MuseumMaps) : Option String :=
  mapGet museumMaps.aliasToName venue

/-- `getMuseumId` (`exhibition.service.ts`): the source throws `NotFoundError`
when the lookup is falsy (`undefined` or `''`); every caller in scope catches
that exception, so the throw is modelled as `none`. -/
def getMuseumId (venueName : String) (museumMaps : MuseumMaps) : Option String :=
  match mapGet museumMaps.nameToId venueName with
  | some id => if id = "" then none else some id
  | none => none

/-! ## Documents and the store -/

/-- An exhibition document as persisted in the `exhibition` collection.
`startDate`/`endDate` are runtime date values (`DateVal`); `officialUrl` is an
optional field. -/
structure Doc where
  title : String
  venue : String
  museumId : String
  startDate : DateVal
  endDate : DateVal
  status : String
  origin : String
  isExcluded : Bool
  hasDateChanged : Bool
  createdAt : Int
  updatedAt : Int
  officialUrl : Option String
deriving DecidableEq, Repr

/-- The document store, keyed by document id.  The most recent write of a key
shadows older ones (same observable semantics as `mapGet`/`mapSet`). -/
abbrev Store := List (String × Doc)

/-- Fetch a document by id (`transaction.get` / map lookups over a snapshot). -/
def storeLookup (s : Store) (k : String) : Option Doc :=
  (s.find? (fun p => p.1 = k)).map (·.2)

/-- `transaction.set` / `docRef.set`: (over)write the document at an id. -/
def storeSet (s : Store) (k : String) (d : Doc) : Store :=
  (k, d) :: s

/-- The field patch passed to `transaction.update` / `docRef.update` by the
two engines.  `some v` sets the date field to `v`; `none` means the field is
not in the patch and keeps its stored value.  The patch always carries
`hasDateChanged: true` and a fresh `updatedAt`. -/
structure UpdatePatch where
  startDate : Option DateVal
  endDate : Option DateVal
  updatedAt : Int
deriving DecidableEq, Repr

/-- Apply an update patch to a stored document. -/
def applyPatch (d : Doc) (p : UpdatePatch) : Doc :=
  { d with
    startDate := p.startDate.getD d.startDate
    endDate := p.endDate.getD d.endDate
    hasDateChanged := true
    updatedAt := p.updatedAt }

/-- A write issued inside a transaction (or directly by the per-record
engine). -/
inductive WriteOp where
  | set (id : String) (doc : Doc)
  | update (id : String) (patch : UpdatePatch)
deriving DecidableEq, Repr

/-- The id a write targets. -/
def WriteOp.id : WriteOp → String
  | .set k _ => k
  | .update k _ => k

/-- Apply one write to the store.  `update` on a missing document would make
Firestore reject the transaction; the engines only ever update documents they
have just read as existing, so that branch is unreachable and modelled as a
no-op. -/
def applyWrite (s : Store) : WriteOp → Store
  | .set k d => storeSet s k d
  | .update k p =>
    match storeLookup s k with
    | some d => storeSet s k (applyPatch d p)
    | none => s

/-- Apply the write phase of a transaction in order. -/
def applyWrites (s : Store) (ws : List WriteOp) : Store :=
  ws.foldl applyWrite s

/-! ## Scraped records and the prepare phase (`processExhibitionBatch`) -/

/-- A scraped exhibition record (`src/schemas/exhibition.schema.ts`);
`nullish` fields are `Option String`. -/
structure Scraped where
  title : String
  venue : String
  startDate : Option String
  endDate : Option String
  officialUrl : Option String
  imageUrl : Option String
deriving DecidableEq, Repr

/-- Modelled from the spec: `getExhibitionDocumentId` lives in
`src/utils/hash.ts`, which is not part of the snapshot.  The spec (§4.2)
requires a deterministic, stable function of `(museumId, title)`; the unit
tests mock it as the string `museumId ++ "_" ++ title`, which this model
adopts. -/
def getExhibitionDocumentId (museumId title : String) : String :=
  museumId ++ "_" ++ title

/-- One entry of the `exhibitionData` array prepared by
`processExhibitionBatch` before its transaction. -/
structure Prepared where
  exhibition : Scraped
  documentId : String
  museumId : String
  canonicalVenueName : String
deriving DecidableEq, Repr

/-- The per-record preparation step of `processExhibitionBatch` (lines 53-82):
resolve the venue (`if (!canonicalVenueName)` treats `''` as not found), fetch
the museum id (a `NotFoundError` is caught by the surrounding `try`), and
derive the document id.  `none` means the record is counted as an error. -/
def prepareExhibition (museumMaps : MuseumMaps) (e : Scraped) : Option Prepared :=
  match normalizeVenue e.venue museumMaps with
  | none => none
  | some cn =>
    if cn = "" then none
    else
      match getMuseumId cn museumMaps with
      | none => none
      | some mid => some ⟨e, getExhibitionDocumentId mid e.title, mid, cn⟩

/-- The prepare loop: the surviving `exhibitionData` list (in input order) and
the number of records counted as errors during preparation. -/
def prepPhase (museumMaps : MuseumMaps) : List Scraped → List Prepared × Nat
  | [] => ([], 0)
  | e :: es =>
    let (ps, errs) := prepPhase museumMaps es
    match prepareExhibition museumMaps e with
    | some p => (p :: ps, errs)
    | none => (ps, errs + 1)

/-- The derived identity of a record, when it survives preparation. -/
def recordId (museumMaps : MuseumMaps) (e : Scraped) : Option String :=
  (prepareExhibition museumMaps e).map (·.documentId)

/-- The identities of the records of a group that survive preparation. -/
def groupIds (museumMaps : MuseumMaps) (g : List Scraped) : List String :=
  (prepPhase museumMaps g).1.map (·.documentId)

/-! ## The transactional decision phase -/

/-- `...(exhibition.startDate && { startDate: Timestamp.fromDate(...) })`:
the date field of a write, included only when the incoming value is truthy. -/
def dateWrite (incoming : Option String) : Option DateVal :=
  match incoming with
  | some s => if s = "" then none else some (.ts (tokyoMidnight s))
  | none => none

/-- The new document built by the create branch of `processExhibitionBatch`
(lines 135-153): absent dates leave the field out (`missing`), and
`officialUrl` is included only for `origin === 'scrape'` with a truthy
incoming value. -/
def newDoc (p : Prepared) (origin : String) (now : Int) : Doc :=
  { title := p.exhibition.title
    venue := p.canonicalVenueName
    museumId := p.museumId
    startDate := (dateWrite p.exhibition.startDate).getD .missing
    endDate := (dateWrite p.exhibition.endDate).getD .missing
    status := "pending"
    origin := origin
    isExcluded := false
    hasDateChanged := false
    createdAt := now
    updatedAt := now
    officialUrl :=
      if origin = "scrape" ∧ jsTruthy p.exhibition.officialUrl then
        p.exhibition.officialUrl
      else none }

/-- The decision taken for one prepared record in the write phase. -/
inductive Decision where
  | created (doc : Doc)
  | updated (patch : UpdatePatch)
  | skipped
deriving DecidableEq, Repr

/-- The read-and-decide step for one record of the batched engine
(lines 101-159), reading from the transaction's read snapshot `s`:
if the document exists, compare both dates (`areDatesEqual` may throw, which
aborts the whole transaction), skip when both are equal, otherwise update
with the truthy incoming dates; if it does not exist, create. -/
def decideOne (s : Store) (now : Int) (origin : String) (p : Prepared) :
    Except String Decision :=
  match storeLookup s p.documentId with
  | some data => do
    let startEq ← areDatesEqual data.startDate p.exhibition.startDate
    let endEq ← areDatesEqual data.endDate p.exhibition.endDate
    if startEq && endEq then pure .skipped
    else
      pure (.updated ⟨dateWrite p.exhibition.startDate,
        dateWrite p.exhibition.endDate, now⟩)
  | none => pure (.created (newDoc p origin now))

/-- Aggregate outcome counts. -/
structure Counts where
  created : Nat
  updated : Nat
  skipped : Nat
  errors : Nat
deriving DecidableEq, Repr

instance : Add Counts :=
  ⟨fun a b => ⟨a.created + b.created, a.updated + b.updated,
    a.skipped + b.skipped, a.errors + b.errors⟩⟩

/-- The write phase of the transaction callback: every record is decided
against the read snapshot `s` (all reads happen before all writes), counts
are accumulated, and the writes are collected in record order.  A thrown
comparison aborts the whole transaction. -/
def runTx (s : Store) (now : Int) (origin : String) :
    List Prepared → Except String (Counts × List WriteOp)
  | [] => .ok (⟨0, 0, 0, 0⟩, [])
  | p :: ps => do
    let d ← decideOne s now origin p
    let (c, ws) ← runTx s now origin ps
    match d with
    | .created doc => .ok (⟨1, 0, 0, 0⟩ + c, .set p.documentId doc :: ws)
    | .updated patch => .ok (⟨0, 1, 0, 0⟩ + c, .update p.documentId patch :: ws)
    | .skipped => .ok (⟨0, 0, 1, 0⟩ + c, ws)

/-- The result of `processExhibitionBatch`: the counts it returns, the store
after it, the writes its transaction committed, and whether a transaction was
executed at all (`db.runTransaction` is only called when `exhibitionData` is
non-empty). -/
structure BatchResult where
  counts : Counts
  store : Store
  writes : List WriteOp
  ranTx : Bool
deriving DecidableEq, Repr

/-- `processExhibitionBatch` (lines 27-172).  `txFail` models the store
throwing at commit time (conflict, exhaustion, connectivity); a throw from
inside the callback (`runTx` returning `.error`) is caught by the same
`catch`, which counts every prepared record as an error and zeroes the other
counters. -/
def processExhibitionBatch (exhibitions : List Scraped)
    (museumMaps : MuseumMaps) (origin : String) (s : Store) (now : Int)
    (txFail : Bool) : BatchResult :=
  let (ps, prepErrs) := prepPhase museumMaps exhibitions
  if ps.isEmpty then ⟨⟨0, 0, 0, prepErrs⟩, s, [], false⟩
  else if txFail then ⟨⟨0, 0, 0, prepErrs + ps.length⟩, s, [], true⟩
  else
    match runTx s now origin ps with
    | .ok (c, ws) =>
      ⟨c + ⟨0, 0, 0, prepErrs⟩, applyWrites s ws, ws, true⟩
    | .error _ => ⟨⟨0, 0, 0, prepErrs + ps.length⟩, s, [], true⟩

/-- `const BATCH_SIZE = 100`: one iteration of the slice loop of
`processScrapeResults`.  The `fuel` argument is the loop bound
(`i < exhibitions.length` guarantees at most `length` iterations); it makes
the recursion structural so that the function evaluates by iota reduction.
With fuel at least the list's length the guard branch is unreachable. -/
def chunkGo : Nat → List Scraped → List (List Scraped)
  | _, [] => []
  | 0, _ :: _ => []
  | fuel + 1, e :: rest =>
    (e :: rest).take 100 :: chunkGo fuel ((e :: rest).drop 100)

/-- `const BATCH_SIZE = 100`: the slice loop of `processScrapeResults`,
partitioning the input into groups of (at most) 100 in order. -/
def chunkList (l : List Scraped) : List (List Scraped) :=
  chunkGo l.length l

/-- The sequential group loop of `processScrapeResults`: each group is run
with its own transaction-failure flag (`fails.headD false`), threading the
store; the per-group counts and whether each group executed a transaction are
collected in order. -/
def runChunks (museumMaps : MuseumMaps) (origin : String) (now : Int) :
    Store → List (List Scraped) → List Bool → List (Counts × Bool) × Store
  | s, [], _ => ([], s)
  | s, g :: gs, fs =>
    let r := processExhibitionBatch g museumMaps origin s now (fs.headD false)
    let (cs, s') := runChunks museumMaps origin now r.store gs fs.tail
    ((r.counts, r.ranTx) :: cs, s')

/-- Sum a list of per-group counts. -/
def sumCounts (cs : List Counts) : Counts :=
  cs.foldl (· + ·) ⟨0, 0, 0, 0⟩

/-- `processScrapeResults` (lines 174-209): partition into groups of 100,
process them sequentially, and aggregate the counts.  `fails` supplies the
commit-failure flag of each group in order (`[]` for a run in which the store
never fails). -/
def processScrapeResults (exhibitions : List Scraped)
    (museumMaps : MuseumMaps) (origin : String) (s : Store) (now : Int)
    (fails : List Bool) : Counts × Store :=
  let (cs, s') := runChunks museumMaps origin now s (chunkList exhibitions) fails
  (sumCounts (cs.map (·.1)), s')

/-- The number of transactional groups a `processScrapeResults` run executes
(the number of `db.runTransaction` calls). -/
def transactionCount (exhibitions : List Scraped) (museumMaps : MuseumMaps)
    (origin : String) (s : Store) (now : Int) (fails : List Bool) : Nat :=
  (((runChunks museumMaps origin now s (chunkList exhibitions) fails).1).filter
    (·.2)).length

/-! ## The per-record engine (`src/services/exhibition.service.ts`) -/

/-- `fetchExistingExhibitions`: a map from document id to the stored
`startDate`/`endDate` pair, built once from the whole `exhibition`
collection. -/
def fetchExistingExhibitions (s : Store) : JsMap (DateVal × DateVal) :=
  s.map (fun p => (p.1, (p.2.startDate, p.2.endDate)))

/-- The new document built by the create branch of the per-record
`processExhibition` (lines 109-133): unlike the batched engine it always
writes both date fields, using the empty string `''` as the absent marker. -/
def newDocPR (p : Prepared) (origin : String) (now : Int) : Doc :=
  { title := p.exhibition.title
    venue := p.canonicalVenueName
    museumId := p.museumId
    startDate := (dateWrite p.exhibition.startDate).getD (.str "")
    endDate := (dateWrite p.exhibition.endDate).getD (.str "")
    status := "pending"
    origin := origin
    isExcluded := false
    hasDateChanged := false
    createdAt := now
    updatedAt := now
    officialUrl :=
      if origin = "scrape" ∧ jsTruthy p.exhibition.officialUrl then
        p.exhibition.officialUrl
      else none }

/-- `processExhibition` (per-record variant, lines 56-140): venue resolution
failures throw (`NotFoundError`), the existence check consults the up-front
`existingExhibitionsMap`, and updates always write both date fields (with the
`''` marker for absent dates).  The result is the decision together with the
document id it concerns. -/
def processExhibitionPR (exMap : JsMap (DateVal × DateVal))
    (museumMaps : MuseumMaps) (origin : String) (now : Int) (e : Scraped) :
    Except String (Decision × String) :=
  match prepareExhibition museumMaps e with
  | none => .error "NotFoundError"
  | some p =>
    match mapGet exMap p.documentId with
    | some (sd, ed) => do
      let startEq ← areDatesEqual sd e.startDate
      let endEq ← areDatesEqual ed e.endDate
      if startEq && endEq then .ok (.skipped, p.documentId)
      else
        .ok (.updated ⟨some ((dateWrite e.startDate).getD (.str "")),
          some ((dateWrite e.endDate).getD (.str "")), now⟩, p.documentId)
    | none => .ok (.created (newDocPR p origin now), p.documentId)

/-- The record loop of the per-record `processScrapeResults` (lines 168-192):
each record's decision is applied to the store immediately; any thrown error
is caught and counted.  The `existingExhibitionsMap` is fixed for the whole
run. -/
def runPR (exMap : JsMap (DateVal × DateVal)) (museumMaps : MuseumMaps)
    (origin : String) (now : Int) : List Scraped → Store → Counts × Store
  | [], s => (⟨0, 0, 0, 0⟩, s)
  | e :: es, s =>
    match processExhibitionPR exMap museumMaps origin now e with
    | .error _ =>
      let (c, s') := runPR exMap museumMaps origin now es s
      (⟨0, 0, 0, 1⟩ + c, s')
    | .ok (.created doc, id) =>
      let (c, s') := runPR exMap museumMaps origin now es (storeSet s id doc)
      (⟨1, 0, 0, 0⟩ + c, s')
    | .ok (.updated patch, id) =>
      let (c, s') := runPR exMap museumMaps origin now es
        (applyWrite s (.update id patch))
      (⟨0, 1, 0, 0⟩ + c, s')
    | .ok (.skipped, _) =>
      let (c, s') := runPR exMap museumMaps origin now es s
      (⟨0, 0, 1, 0⟩ + c, s')

/-- The per-record `processScrapeResults` (lines 142-195): fetch the existing
map once, then process every record in order. -/
def processScrapeResultsPR (exhibitions : List Scraped)
    (museumMaps : MuseumMaps) (origin : String) (s : Store) (now : Int) :
    Counts × Store :=
  runPR (fetchExistingExhibitions s) museumMaps origin now exhibitions s

/-- The strings a museum claims in `aliasToName`: its canonical name and its
aliases. -/
def museumKeys (M : Museum) : List String :=
  M.name :: M.aliases.getD []

/-- Decidable disjointness of two museums' key sets. -/
def keysDisjoint (M M' : Museum) : Bool :=
  (museumKeys M).all (fun k => decide (k ∉ museumKeys M'))

/-- The total number of records a count tuple accounts for. -/
def Counts.total (c : Counts) : Nat :=
  c.created + c.updated + c.skipped + c.errors

/-! ## Reference classification used for the per-record vs batched comparison -/

/-- The date fields a store exposes at an id (what both engines' decisions
depend on). -/
def storeDates (s : Store) (k : String) : Option (DateVal × DateVal) :=
  (storeLookup s k).map (fun d => (d.startDate, d.endDate))

/-- The terminal outcome class of one record. -/
inductive OutcomeClass where
  | created
  | updated
  | skipped
  | errored
deriving DecidableEq, Repr

/-- The count contribution of one outcome. -/
def classCounts : OutcomeClass → Counts
  | .created => ⟨1, 0, 0, 0⟩
  | .updated => ⟨0, 1, 0, 0⟩
  | .skipped => ⟨0, 0, 1, 0⟩
  | .errored => ⟨0, 0, 0, 1⟩

/-- The outcome class of a record against a fixed view `look` of the stored
dates (meaningful when the looked-up dates are well formed, so that the
comparison cannot throw). -/
def classify (look : String → Option (DateVal × DateVal)) (m : MuseumMaps)
    (e : Scraped) : OutcomeClass :=
  match prepareExhibition m e with
  | none => .errored
  | some p =>
    match look p.documentId with
    | none => .created
    | some (sd, ed) =>
      if datesEqWf sd p.exhibition.startDate &&
          datesEqWf ed p.exhibition.endDate then .skipped
      else .updated

/-- The reference count tuple of a record list against a fixed view of the
stored dates. -/
def refCounts (look : String → Option (DateVal × DateVal)) (m : MuseumMaps)
    (es : List Scraped) : Counts :=
  sumCounts (es.map (fun e => classCounts (classify look m e)))

/-- A record's write to its identity: a create or an update. -/
inductive WriteKind where
  | createW (p : Prepared)
  | updateW (p : Prepared)
deriving DecidableEq, Repr

/-- The first record of the list that writes to identity `k` under the fixed
view `look` (error and skip outcomes write nothing). -/
def theWriter (look : String → Option (DateVal × DateVal)) (m : MuseumMaps) :
    List Scraped → String → Option WriteKind
  | [], _ => none
  | e :: es, k =>
    match prepareExhibition m e with
    | none => theWriter look m es k
    | some p =>
      if p.documentId = k then
        match look k with
        | none => some (.createW p)
        | some (sd, ed) =>
          if datesEqWf sd p.exhibition.startDate &&
              datesEqWf ed p.exhibition.endDate then theWriter look m es k
          else some (.updateW p)
      else theWriter look m es k

/-- The write list the batched transaction emits for a group, under the fixed
view `look` of the read snapshot. -/
def txWrites (look : String → Option (DateVal × DateVal)) (m : MuseumMaps)
    (origin : String) (now : Int) : List Scraped → List WriteOp
  | [] => []
  | e :: es =>
    match prepareExhibition m e with
    | none => txWrites look m origin now es
    | some p =>
      match look p.documentId with
      | none =>
        .set p.documentId (newDoc p origin now) :: txWrites look m origin now es
      | some (sd, ed) =>
        if datesEqWf sd p.exhibition.startDate &&
            datesEqWf ed p.exhibition.endDate then txWrites look m origin now es
        else
          .update p.documentId ⟨dateWrite p.exhibition.startDate,
            dateWrite p.exhibition.endDate, now⟩ :: txWrites look m origin now es

/-- Agreement of two documents up to the absent-date representation: all
fields equal except that where the per-record engine wrote its empty-string
absent marker the batched engine may hold anything (an omitted field on
create, the untouched previous value on update). -/
def docSimilar (db dp : Doc) : Prop :=
  db.title = dp.title ∧ db.venue = dp.venue ∧ db.museumId = dp.museumId ∧
  db.status = dp.status ∧ db.origin = dp.origin ∧
  db.isExcluded = dp.isExcluded ∧ db.hasDateChanged = dp.hasDateChanged ∧
  db.createdAt = dp.createdAt ∧ db.updatedAt = dp.updatedAt ∧
  db.officialUrl = dp.officialUrl ∧
  (db.startDate = dp.startDate ∨ dp.startDate = .str "") ∧
  (db.endDate = dp.endDate ∨ dp.endDate = .str "")

/-- Well-formedness of a store: every stored date field is an instant or
absent (never a string), so the date comparator never throws on it. -/
def wfStore (s : Store) : Prop :=
  ∀ k sd ed, storeDates s k = some (sd, ed) → sd.wf = true ∧ ed.wf = true

/-! ## General lemmas -/

theorem areDatesEqual_wf (existing : DateVal) (incoming : Option String)
    (h : existing.wf = true) :
    areDatesEqual existing incoming = .ok (datesEqWf existing incoming) := by
  cases existing with
  | ts t => cases h' : convertIncoming incoming <;>
      simp [areDatesEqual, datesEqWf, h']
  | str s => simp [DateVal.wf] at h
  | missing => cases h' : convertIncoming incoming <;>
      simp [areDatesEqual, datesEqWf, h']

theorem mapGet_set_self {α : Type} (m : JsMap α) (k : String) (v : α) :
    mapGet (mapSet m k v) k = some v := by
  simp [mapGet, mapSet, List.find?]

theorem mapGet_set_ne {α : Type} (m : JsMap α) (k k' : String) (v : α)
    (h : k' ≠ k) : mapGet (mapSet m k v) k' = mapGet m k' := by
  simp [mapGet, mapSet, List.find?, h.symm]

theorem storeLookup_set_self (s : Store) (k : String) (d : Doc) :
    storeLookup (storeSet s k d) k = some d := by
  simp [storeLookup, storeSet, List.find?]

theorem storeLookup_set_ne (s : Store) (k k' : String) (d : Doc)
    (h : k' ≠ k) : storeLookup (storeSet s k d) k' = storeLookup s k' := by
  simp [storeLookup, storeSet, List.find?, h.symm]

theorem Counts.add_def (a b : Counts) :
    a + b = ⟨a.created + b.created, a.updated + b.updated,
      a.skipped + b.skipped, a.errors + b.errors⟩ := rfl

/-- The date comparator accepts what the batched create branch just wrote for
the same incoming value: a created document is immediately a skip on
re-reconciliation. -/
theorem areDatesEqual_dateWrite (x : Option String) :
    areDatesEqual ((dateWrite x).getD .missing) x = .ok true := by
  cases x with
  | none => simp [dateWrite, areDatesEqual, convertIncoming]
  | some s =>
    by_cases h : s = "" <;>
      simp [dateWrite, areDatesEqual, convertIncoming, h]

theorem prepareExhibition_exhibition (m : MuseumMaps) (e : Scraped)
    (p : Prepared) (h : prepareExhibition m e = some p) : p.exhibition = e := by
  unfold prepareExhibition at h
  split at h
  · exact absurd h (by simp)
  · split at h
    · simp at h
    · split at h
      · simp at h
      · simp only [Option.some.injEq] at h
        subst h
        rfl

/-! ## Claim C3: the date-change detector contract -/

/-- Claim C3 counterexample: the claim asserts that a stored empty string
counts as the same semantic state as absent, so `areDatesEqual('', undefined)`
would have to return `true`; the code compares `existing === undefined`, so a
stored `''` is not absent and the call returns `false`. -/
theorem c3_counterexample : areDatesEqual (.str "") none = .ok false := rfl

/-- Claim C3 (amended): full characterisation of `areDatesEqual`.  For stored
values of the declared type (`Timestamp | undefined`): both absent (incoming
absent, `null` or `''`) gives `true`; exactly one absent gives `false`; both
present gives exactly the equality of the incoming date's Tokyo-midnight
instant with the stored instant.  A stored empty string is NOT treated as
absent: against an absent incoming value it yields `false`, and against a
present one the comparison throws a `TypeError`. -/
theorem c3_amended (t : Int) (s u : String) (hs : s ≠ "") :
    areDatesEqual .missing none = .ok true ∧
    areDatesEqual .missing (some "") = .ok true ∧
    areDatesEqual .missing (some s) = .ok false ∧
    areDatesEqual (.ts t) none = .ok false ∧
    areDatesEqual (.ts t) (some "") = .ok false ∧
    areDatesEqual (.ts t) (some s) = .ok (decide (t = tokyoMidnight s)) ∧
    areDatesEqual (.str u) none = .ok false ∧
    (∃ msg, areDatesEqual (.str u) (some s) = .error msg) := by
  refine ⟨rfl, rfl, ?_, rfl, rfl, ?_, rfl, ?_⟩
  · simp [areDatesEqual, convertIncoming, hs]
  · simp [areDatesEqual, convertIncoming, hs]
  · exact ⟨"TypeError: existing.isEqual is not a function",
      by simp [areDatesEqual, convertIncoming, hs]⟩

theorem c3_amended_witness :
    (("2024-01-01" : String) ≠ "") ∧
    (areDatesEqual .missing none = .ok true ∧
      areDatesEqual .missing (some "") = .ok true ∧
      areDatesEqual .missing (some "2024-01-01") = .ok false ∧
      areDatesEqual (.ts 0) none = .ok false ∧
      areDatesEqual (.ts 0) (some "") = .ok false ∧
      areDatesEqual (.ts 0) (some "2024-01-01") =
        .ok (decide ((0 : Int) = tokyoMidnight "2024-01-01")) ∧
      areDatesEqual (.str "x") none = .ok false ∧
      (∃ msg, areDatesEqual (.str "x") (some "2024-01-01") = .error msg)) :=
  ⟨by decide, c3_amended 0 "2024-01-01" "x" (by decide)⟩

/-! ## Claim C9: venue map invariants -/

theorem keysDisjoint_spec {M M' : Museum} (h : keysDisjoint M M' = true)
    {k : String} (hk : k ∈ museumKeys M) : k ∉ museumKeys M' := by
  have := List.all_eq_true.mp h k hk
  exact of_decide_eq_true this

theorem mapGet_foldl_mapSet (as : List String) (v : String) (mm : JsMap String)
    (k : String) :
    mapGet (as.foldl (fun m a => mapSet m a v) mm) k =
      if k ∈ as then some v else mapGet mm k := by
  induction as generalizing mm with
  | nil => simp
  | cons a as ih =>
    simp only [List.foldl_cons, ih]
    by_cases h1 : k ∈ as
    · simp [h1]
    · by_cases h2 : k = a
      · subst h2
        simp [h1, mapGet_set_self]
      · simp [List.mem_cons, h1, h2, mapGet_set_ne _ _ _ _ h2]

theorem step_aliasToName_mem (maps : MuseumMaps) (M : Museum) (k : String)
    (hk : k ∈ museumKeys M) :
    mapGet (buildMuseumMapsStep maps M).aliasToName k = some M.name := by
  unfold buildMuseumMapsStep
  cases hA : M.aliases with
  | none =>
    have hk' : k = M.name := by simpa [museumKeys, hA] using hk
    simp [hk', mapGet_set_self]
  | some as =>
    simp only [hA]
    rw [mapGet_foldl_mapSet]
    by_cases h1 : k ∈ as
    · simp [h1]
    · have hk' : k = M.name := by
        simp [museumKeys, hA] at hk
        tauto
      simp [h1, hk', mapGet_set_self]

theorem step_aliasToName_notmem (maps : MuseumMaps) (M : Museum) (k : String)
    (hk : k ∉ museumKeys M) :
    mapGet (buildMuseumMapsStep maps M).aliasToName k =
      mapGet maps.aliasToName k := by
  have hname : k ≠ M.name := by
    intro h
    exact hk (by simp [museumKeys, h])
  unfold buildMuseumMapsStep
  cases hA : M.aliases with
  | none => simp [mapGet_set_ne _ _ _ _ hname]
  | some as =>
    have has : k ∉ as := by
      intro h
      exact hk (by simp [museumKeys, hA, h])
    simp only []
    rw [mapGet_foldl_mapSet]
    simp [has, mapGet_set_ne _ _ _ _ hname]

theorem step_nameToId_self (maps : MuseumMaps) (M : Museum) :
    mapGet (buildMuseumMapsStep maps M).nameToId M.name = some M.id := by
  unfold buildMuseumMapsStep
  cases M.aliases <;> simp [mapGet_set_self]

theorem step_nameToId_ne (maps : MuseumMaps) (M : Museum) (k : String)
    (hk : k ≠ M.name) :
    mapGet (buildMuseumMapsStep maps M).nameToId k = mapGet maps.nameToId k := by
  unfold buildMuseumMapsStep
  cases M.aliases <;> simp [mapGet_set_ne _ _ _ _ hk]

theorem foldl_step_preserve (post : List Museum) (maps : MuseumMaps)
    (k : String) (h : ∀ M' ∈ post, k ∉ museumKeys M') :
    mapGet (post.foldl buildMuseumMapsStep maps).aliasToName k =
        mapGet maps.aliasToName k ∧
      mapGet (post.foldl buildMuseumMapsStep maps).nameToId k =
        mapGet maps.nameToId k := by
  induction post generalizing maps with
  | nil => simp
  | cons M' post ih =>
    have h1 : k ∉ museumKeys M' := h M' (by simp)
    have h2 : ∀ M'' ∈ post, k ∉ museumKeys M'' := fun M'' hm => h M'' (by simp [hm])
    simp only [List.foldl_cons]
    rcases ih (buildMuseumMapsStep maps M') h2 with ⟨ha, hb⟩
    refine ⟨?_, ?_⟩
    · rw [ha, step_aliasToName_notmem _ _ _ h1]
    · rw [hb, step_nameToId_ne]
      intro hEq
      exact h1 (by simp [museumKeys, hEq])

/-- Claim C9 counterexample: the claim quantifies over every list of museums,
but `buildMuseumMaps` lets a later museum's alias overwrite an earlier
museum's canonical name: with museum `X` followed by museum `Y` that has `X`
as an alias, resolving `X` yields `Y`, not `X`. -/
theorem c9_counterexample :
    normalizeVenue "X"
        (buildMuseumMaps [⟨"1", "X", none⟩, ⟨"2", "Y", some ["X"]⟩]) =
      some "Y" := by decide

/-- Claim C9 (amended): for every list of museums and every museum `M` in it
whose name and aliases do not occur among the names or aliases of any museum
appearing later in the list, the built maps send `M`'s canonical name to
itself, resolve each of `M`'s aliases (and the name itself) to the canonical
name, and map the canonical name to `M`'s id. -/
theorem c9_amended (pre post : List Museum) (M : Museum)
    (hdisj : ∀ M' ∈ post, keysDisjoint M M' = true) :
    normalizeVenue M.name (buildMuseumMaps (pre ++ M :: post)) = some M.name ∧
    (∀ a ∈ M.aliases.getD [],
      normalizeVenue a (buildMuseumMaps (pre ++ M :: post)) = some M.name) ∧
    mapGet (buildMuseumMaps (pre ++ M :: post)).nameToId M.name = some M.id := by
  have hfold : buildMuseumMaps (pre ++ M :: post) =
      post.foldl buildMuseumMapsStep
        (buildMuseumMapsStep (pre.foldl buildMuseumMapsStep ⟨[], []⟩) M) := by
    simp [buildMuseumMaps, List.foldl_append]
  have hpres : ∀ k, k ∈ museumKeys M →
      mapGet (buildMuseumMaps (pre ++ M :: post)).aliasToName k =
          mapGet (buildMuseumMapsStep
            (pre.foldl buildMuseumMapsStep ⟨[], []⟩) M).aliasToName k ∧
        mapGet (buildMuseumMaps (pre ++ M :: post)).nameToId k =
          mapGet (buildMuseumMapsStep
            (pre.foldl buildMuseumMapsStep ⟨[], []⟩) M).nameToId k := by
    intro k hk
    rw [hfold]
    exact foldl_step_preserve post _ k
      (fun M' hm => keysDisjoint_spec (hdisj M' hm) hk)
  have hnamekey : M.name ∈ museumKeys M := by simp [museumKeys]
  refine ⟨?_, ?_, ?_⟩
  · show mapGet (buildMuseumMaps (pre ++ M :: post)).aliasToName M.name = _
    rw [(hpres M.name hnamekey).1]
    exact step_aliasToName_mem _ _ _ hnamekey
  · intro a ha
    have hakey : a ∈ museumKeys M := by simp [museumKeys, ha]
    show mapGet (buildMuseumMaps (pre ++ M :: post)).aliasToName a = _
    rw [(hpres a hakey).1]
    exact step_aliasToName_mem _ _ _ hakey
  · rw [(hpres M.name hnamekey).2]
    exact step_nameToId_self _ _

theorem c9_amended_witness :
    (∀ M' ∈ [(⟨"2", "Y", none⟩ : Museum)],
      keysDisjoint ⟨"1", "X", some ["A1", "A2"]⟩ M' = true) ∧
    (normalizeVenue "X"
        (buildMuseumMaps ([] ++ (⟨"1", "X", some ["A1", "A2"]⟩ : Museum) ::
          [⟨"2", "Y", none⟩])) = some "X" ∧
     (∀ a ∈ (some ["A1", "A2"] : Option (List String)).getD [],
       normalizeVenue a
          (buildMuseumMaps ([] ++ (⟨"1", "X", some ["A1", "A2"]⟩ : Museum) ::
            [⟨"2", "Y", none⟩])) = some "X") ∧
     mapGet (buildMuseumMaps ([] ++ (⟨"1", "X", some ["A1", "A2"]⟩ : Museum) ::
        [⟨"2", "Y", none⟩])).nameToId "X" = some "1") :=
  ⟨by decide, c9_amended [] [⟨"2", "Y", none⟩] ⟨"1", "X", some ["A1", "A2"]⟩
    (by decide)⟩

/-! ## Claim C1: idempotence of reconciliation -/

/-- Claim C1: for every scraped record that resolves to a registered museum
(dates may be present or absent) and whose derived identity has no document
in the store, running `processScrapeResults` twice on the unchanged record
yields `created = 1` on the first run and `skipped = 1` on the second; the
second run leaves the store unchanged and its transaction issues no write. -/
theorem c1_idempotence (r : Scraped) (m : MuseumMaps) (origin : String)
    (s0 : Store) (now1 now2 : Int) (p : Prepared)
    (hprep : prepareExhibition m r = some p)
    (hfresh : storeLookup s0 p.documentId = none) :
    (processScrapeResults [r] m origin s0 now1 []).1 = ⟨1, 0, 0, 0⟩ ∧
    (processScrapeResults [r] m origin
        (processScrapeResults [r] m origin s0 now1 []).2 now2 []).1 =
      ⟨0, 0, 1, 0⟩ ∧
    (processScrapeResults [r] m origin
        (processScrapeResults [r] m origin s0 now1 []).2 now2 []).2 =
      (processScrapeResults [r] m origin s0 now1 []).2 ∧
    (processExhibitionBatch [r] m origin
        (processScrapeResults [r] m origin s0 now1 []).2 now2 false).writes =
      [] := by
  have hchunk : chunkList [r] = [[r]] := rfl
  have hprepPhase : prepPhase m [r] = ([p], 0) := by simp [prepPhase, hprep]
  have hdec1 : decideOne s0 now1 origin p =
      .ok (.created (newDoc p origin now1)) := by
    simp [decideOne, hfresh, pure, Except.pure]
  have hruntx1 : runTx s0 now1 origin [p] =
      .ok (⟨1, 0, 0, 0⟩, [.set p.documentId (newDoc p origin now1)]) := by
    simp [runTx, hdec1, Counts.add_def, bind, Except.bind]
  have hbatch1 : processExhibitionBatch [r] m origin s0 now1 false =
      ⟨⟨1, 0, 0, 0⟩, storeSet s0 p.documentId (newDoc p origin now1),
        [.set p.documentId (newDoc p origin now1)], true⟩ := by
    simp [processExhibitionBatch, hprepPhase, hruntx1, applyWrites, applyWrite,
      Counts.add_def]
  have hrun1 : processScrapeResults [r] m origin s0 now1 [] =
      (⟨1, 0, 0, 0⟩, storeSet s0 p.documentId (newDoc p origin now1)) := by
    simp [processScrapeResults, hchunk, runChunks, hbatch1, sumCounts,
      Counts.add_def]
  have hdec2 : decideOne (storeSet s0 p.documentId (newDoc p origin now1))
      now2 origin p = .ok .skipped := by
    simp [decideOne, storeLookup_set_self, newDoc, areDatesEqual_dateWrite, pure, Except.pure, bind, Except.bind]
  have hruntx2 : runTx (storeSet s0 p.documentId (newDoc p origin now1))
      now2 origin [p] = .ok (⟨0, 0, 1, 0⟩, []) := by
    simp [runTx, hdec2, Counts.add_def, bind, Except.bind]
  have hbatch2 : processExhibitionBatch [r] m origin
      (storeSet s0 p.documentId (newDoc p origin now1)) now2 false =
      ⟨⟨0, 0, 1, 0⟩, storeSet s0 p.documentId (newDoc p origin now1),
        [], true⟩ := by
    simp [processExhibitionBatch, hprepPhase, hruntx2, applyWrites,
      Counts.add_def]
  have hrun2 : processScrapeResults [r] m origin
      (storeSet s0 p.documentId (newDoc p origin now1)) now2 [] =
      (⟨0, 0, 1, 0⟩, storeSet s0 p.documentId (newDoc p origin now1)) := by
    simp [processScrapeResults, hchunk, runChunks, hbatch2, sumCounts,
      Counts.add_def]
  rw [hrun1]
  rw [hrun2]
  simp [hbatch2]

theorem c1_idempotence_witness :
    prepareExhibition ⟨[("v", "v")], [("v", "mid")]⟩
        ⟨"t", "v", none, none, none, none⟩ =
      some ⟨⟨"t", "v", none, none, none, none⟩, "mid_t", "mid", "v"⟩ ∧
    storeLookup [] "mid_t" = none ∧
    ((processScrapeResults [⟨"t", "v", none, none, none, none⟩]
        ⟨[("v", "v")], [("v", "mid")]⟩ "scrape" [] 1 []).1 = ⟨1, 0, 0, 0⟩ ∧
      (processScrapeResults [⟨"t", "v", none, none, none, none⟩]
          ⟨[("v", "v")], [("v", "mid")]⟩ "scrape"
          (processScrapeResults [⟨"t", "v", none, none, none, none⟩]
            ⟨[("v", "v")], [("v", "mid")]⟩ "scrape" [] 1 []).2 2 []).1 =
        ⟨0, 0, 1, 0⟩ ∧
      (processScrapeResults [⟨"t", "v", none, none, none, none⟩]
          ⟨[("v", "v")], [("v", "mid")]⟩ "scrape"
          (processScrapeResults [⟨"t", "v", none, none, none, none⟩]
            ⟨[("v", "v")], [("v", "mid")]⟩ "scrape" [] 1 []).2 2 []).2 =
        (processScrapeResults [⟨"t", "v", none, none, none, none⟩]
          ⟨[("v", "v")], [("v", "mid")]⟩ "scrape" [] 1 []).2 ∧
      (processExhibitionBatch [⟨"t", "v", none, none, none, none⟩]
          ⟨[("v", "v")], [("v", "mid")]⟩ "scrape"
          (processScrapeResults [⟨"t", "v", none, none, none, none⟩]
            ⟨[("v", "v")], [("v", "mid")]⟩ "scrape" [] 1 []).2 2 false).writes =
        []) :=
  ⟨by decide, rfl,
    c1_idempotence ⟨"t", "v", none, none, none, none⟩
      ⟨[("v", "v")], [("v", "mid")]⟩ "scrape" [] 1 2
      ⟨⟨"t", "v", none, none, none, none⟩, "mid_t", "mid", "v"⟩
      (by decide) rfl⟩

/-! ## Claim C4: create postcondition -/

/-- Claim C4: for every record that resolves to a registered museum and whose
derived identity has no existing document, the engine produces outcome
`created` and writes a new document with `status = 'pending'`, the supplied
`origin`, `isExcluded = false`, `hasDateChanged = false`,
`createdAt = updatedAt = now`, and an `officialUrl` field only when the
origin is `'scrape'` and the incoming value is present (truthy); a
`'scrape-feed'` record never carries an `officialUrl` field. -/
theorem c4_create (r : Scraped) (m : MuseumMaps) (origin : String) (s : Store)
    (now : Int) (p : Prepared) (hprep : prepareExhibition m r = some p)
    (hfresh : storeLookup s p.documentId = none) :
    (processExhibitionBatch [r] m origin s now false).counts = ⟨1, 0, 0, 0⟩ ∧
    ∃ doc,
      storeLookup (processExhibitionBatch [r] m origin s now false).store
          p.documentId = some doc ∧
      doc.status = "pending" ∧
      doc.origin = origin ∧
      doc.isExcluded = false ∧
      doc.hasDateChanged = false ∧
      doc.createdAt = now ∧
      doc.updatedAt = now ∧
      (∀ u, doc.officialUrl = some u →
        origin = "scrape" ∧ r.officialUrl = some u) ∧
      (origin = "scrape-feed" → doc.officialUrl = none) ∧
      (origin = "scrape" → jsTruthy r.officialUrl = true →
        doc.officialUrl = r.officialUrl) := by
  have hpe : p.exhibition = r := prepareExhibition_exhibition m r p hprep
  have hprepPhase : prepPhase m [r] = ([p], 0) := by simp [prepPhase, hprep]
  have hdec : decideOne s now origin p = .ok (.created (newDoc p origin now)) := by
    simp [decideOne, hfresh, pure, Except.pure]
  have hruntx : runTx s now origin [p] =
      .ok (⟨1, 0, 0, 0⟩, [.set p.documentId (newDoc p origin now)]) := by
    simp [runTx, hdec, Counts.add_def, bind, Except.bind]
  have hbatch : processExhibitionBatch [r] m origin s now false =
      ⟨⟨1, 0, 0, 0⟩, storeSet s p.documentId (newDoc p origin now),
        [.set p.documentId (newDoc p origin now)], true⟩ := by
    simp [processExhibitionBatch, hprepPhase, hruntx, applyWrites, applyWrite,
      Counts.add_def]
  rw [hbatch]
  refine ⟨rfl, newDoc p origin now, by simp [storeLookup_set_self], rfl, rfl,
    rfl, rfl, rfl, rfl, ?_, ?_, ?_⟩
  · intro u hu
    simp only [newDoc, hpe] at hu
    by_cases hc : origin = "scrape" ∧ jsTruthy r.officialUrl = true
    · simp [hc] at hu
      exact ⟨hc.1, by rw [hu]⟩
    · simp [hc] at hu
  · intro hfeed
    simp only [newDoc, hpe]
    have : ¬(origin = "scrape" ∧ jsTruthy r.officialUrl = true) := by
      rintro ⟨h1, _⟩
      rw [hfeed] at h1
      exact absurd h1 (by decide)
    simp [this]
  · intro h1 h2
    simp only [newDoc, hpe]
    simp [h1, h2]

theorem c4_create_witness :
    prepareExhibition ⟨[("v", "v")], [("v", "mid")]⟩
        ⟨"t", "v", none, none, some "https://x", none⟩ =
      some ⟨⟨"t", "v", none, none, some "https://x", none⟩, "mid_t", "mid", "v"⟩ ∧
    storeLookup [] "mid_t" = none ∧
    ((processExhibitionBatch [⟨"t", "v", none, none, some "https://x", none⟩]
        ⟨[("v", "v")], [("v", "mid")]⟩ "scrape" [] 7 false).counts =
      ⟨1, 0, 0, 0⟩ ∧
    ∃ doc,
      storeLookup (processExhibitionBatch
          [⟨"t", "v", none, none, some "https://x", none⟩]
          ⟨[("v", "v")], [("v", "mid")]⟩ "scrape" [] 7 false).store
          "mid_t" = some doc ∧
      doc.status = "pending" ∧
      doc.origin = "scrape" ∧
      doc.isExcluded = false ∧
      doc.hasDateChanged = false ∧
      doc.createdAt = 7 ∧
      doc.updatedAt = 7 ∧
      (∀ u, doc.officialUrl = some u →
        "scrape" = "scrape" ∧
          (⟨"t", "v", none, none, some "https://x", none⟩ : Scraped).officialUrl =
            some u) ∧
      ("scrape" = "scrape-feed" → doc.officialUrl = none) ∧
      ("scrape" = "scrape" →
        jsTruthy (⟨"t", "v", none, none, some "https://x", none⟩ :
          Scraped).officialUrl = true →
        doc.officialUrl =
          (⟨"t", "v", none, none, some "https://x", none⟩ : Scraped).officialUrl)) :=
  ⟨by decide, rfl,
    c4_create ⟨"t", "v", none, none, some "https://x", none⟩
      ⟨[("v", "v")], [("v", "mid")]⟩ "scrape" [] 7
      ⟨⟨"t", "v", none, none, some "https://x", none⟩, "mid_t", "mid", "v"⟩
      (by decide) rfl⟩

/-! ## Claim C2: update postcondition -/

/-- Claim C2 counterexample: the claim asserts that on an update an absent
incoming date overwrites the stored field with the absent-marker.  With a
stored document whose `startDate` is the instant `5` and an incoming record
whose `startDate` is absent (and whose `endDate` differs), the engine does
produce `updated`, but the resulting document still has `startDate = 5` — the
field is left untouched, not overwritten with any absent-marker. -/
theorem c2_counterexample :
    (processExhibitionBatch [⟨"t", "v", none, some "2024-04-30", none, none⟩]
        ⟨[("v", "v")], [("v", "mid")]⟩ "scrape"
        [("mid_t", ⟨"t", "v", "mid", .ts 5, .ts 9, "pending", "scrape",
          false, false, 3, 3, none⟩)] 7 false).counts = ⟨0, 1, 0, 0⟩ ∧
    (storeLookup (processExhibitionBatch
        [⟨"t", "v", none, some "2024-04-30", none, none⟩]
        ⟨[("v", "v")], [("v", "mid")]⟩ "scrape"
        [("mid_t", ⟨"t", "v", "mid", .ts 5, .ts 9, "pending", "scrape",
          false, false, 3, 3, none⟩)] 7 false).store "mid_t").map
      Doc.startDate = some (.ts 5) ∧
    (DateVal.ts 5 ≠ DateVal.missing ∧ DateVal.ts 5 ≠ DateVal.str "") := by
  refine ⟨rfl, rfl, by decide, by decide⟩

/-- Claim C2 (amended): whenever a document exists for the record's derived
identity, its stored dates are of the declared type (instant or absent), and
at least one date differs from the incoming record, the engine produces
`updated` and writes: each date field overwritten with the newly converted
Asia/Tokyo instant when the incoming date is present, and left unchanged
(not overwritten with an absent-marker) when the incoming date is absent;
`hasDateChanged := true`; `updatedAt := now`; and `title`, `venue`,
`museumId`, `status`, `origin`, `createdAt` untouched. -/
theorem c2_update (r : Scraped) (m : MuseumMaps) (origin : String) (s : Store)
    (now : Int) (p : Prepared) (d : Doc)
    (hprep : prepareExhibition m r = some p)
    (hdoc : storeLookup s p.documentId = some d)
    (hwfs : d.startDate.wf = true) (hwfe : d.endDate.wf = true)
    (hchanged : ¬(datesEqWf d.startDate r.startDate = true ∧
      datesEqWf d.endDate r.endDate = true)) :
    (processExhibitionBatch [r] m origin s now false).counts = ⟨0, 1, 0, 0⟩ ∧
    storeLookup (processExhibitionBatch [r] m origin s now false).store
        p.documentId =
      some { d with
        startDate := (dateWrite r.startDate).getD d.startDate
        endDate := (dateWrite r.endDate).getD d.endDate
        hasDateChanged := true
        updatedAt := now } ∧
    (∀ doc, storeLookup (processExhibitionBatch [r] m origin s now false).store
        p.documentId = some doc →
      doc.title = d.title ∧ doc.venue = d.venue ∧ doc.museumId = d.museumId ∧
      doc.status = d.status ∧ doc.origin = d.origin ∧
      doc.createdAt = d.createdAt) := by
  have hpe : p.exhibition = r := prepareExhibition_exhibition m r p hprep
  have hprepPhase : prepPhase m [r] = ([p], 0) := by simp [prepPhase, hprep]
  have hbool : (datesEqWf d.startDate r.startDate &&
      datesEqWf d.endDate r.endDate) = false := by
    cases h1 : datesEqWf d.startDate r.startDate <;>
      cases h2 : datesEqWf d.endDate r.endDate <;> simp_all
  have hdec : decideOne s now origin p =
      .ok (.updated ⟨dateWrite r.startDate, dateWrite r.endDate, now⟩) := by
    simp [decideOne, hdoc, areDatesEqual_wf _ _ hwfs, areDatesEqual_wf _ _ hwfe,
      hpe, hbool, pure, Except.pure, bind, Except.bind]
  have hruntx : runTx s now origin [p] =
      .ok (⟨0, 1, 0, 0⟩,
        [.update p.documentId ⟨dateWrite r.startDate, dateWrite r.endDate, now⟩]) := by
    simp [runTx, hdec, Counts.add_def, bind, Except.bind]
  have hbatch : processExhibitionBatch [r] m origin s now false =
      ⟨⟨0, 1, 0, 0⟩,
        storeSet s p.documentId
          (applyPatch d ⟨dateWrite r.startDate, dateWrite r.endDate, now⟩),
        [.update p.documentId ⟨dateWrite r.startDate, dateWrite r.endDate, now⟩],
        true⟩ := by
    simp [processExhibitionBatch, hprepPhase, hruntx, applyWrites, applyWrite,
      hdoc, Counts.add_def]
  rw [hbatch]
  refine ⟨rfl, ?_, ?_⟩
  · simp [storeLookup_set_self, applyPatch]
  · intro doc hdoc2
    simp [storeLookup_set_self] at hdoc2
    subst hdoc2
    simp [applyPatch]

theorem c2_update_witness :
    prepareExhibition ⟨[("v", "v")], [("v", "mid")]⟩
        ⟨"t", "v", none, some "2024-04-30", none, none⟩ =
      some ⟨⟨"t", "v", none, some "2024-04-30", none, none⟩, "mid_t", "mid", "v"⟩ ∧
    storeLookup [("mid_t", ⟨"t", "v", "mid", .ts 5, .ts 9, "pending", "scrape",
        false, false, 3, 3, none⟩)] "mid_t" =
      some ⟨"t", "v", "mid", .ts 5, .ts 9, "pending", "scrape",
        false, false, 3, 3, none⟩ ∧
    DateVal.wf (.ts 5) = true ∧
    DateVal.wf (.ts 9) = true ∧
    ¬(datesEqWf (.ts 5) none = true ∧
      datesEqWf (.ts 9) (some "2024-04-30") = true) ∧
    ((processExhibitionBatch [⟨"t", "v", none, some "2024-04-30", none, none⟩]
        ⟨[("v", "v")], [("v", "mid")]⟩ "scrape"
        [("mid_t", ⟨"t", "v", "mid", .ts 5, .ts 9, "pending", "scrape",
          false, false, 3, 3, none⟩)] 7 false).counts = ⟨0, 1, 0, 0⟩ ∧
      storeLookup (processExhibitionBatch
          [⟨"t", "v", none, some "2024-04-30", none, none⟩]
          ⟨[("v", "v")], [("v", "mid")]⟩ "scrape"
          [("mid_t", ⟨"t", "v", "mid", .ts 5, .ts 9, "pending", "scrape",
            false, false, 3, 3, none⟩)] 7 false).store "mid_t" =
        some { (⟨"t", "v", "mid", .ts 5, .ts 9, "pending", "scrape",
            false, false, 3, 3, none⟩ : Doc) with
          startDate := (dateWrite none).getD (.ts 5)
          endDate := (dateWrite (some "2024-04-30")).getD (.ts 9)
          hasDateChanged := true
          updatedAt := 7 } ∧
      (∀ doc, storeLookup (processExhibitionBatch
          [⟨"t", "v", none, some "2024-04-30", none, none⟩]
          ⟨[("v", "v")], [("v", "mid")]⟩ "scrape"
          [("mid_t", ⟨"t", "v", "mid", .ts 5, .ts 9, "pending", "scrape",
            false, false, 3, 3, none⟩)] 7 false).store "mid_t" = some doc →
        doc.title = "t" ∧ doc.venue = "v" ∧ doc.museumId = "mid" ∧
        doc.status = "pending" ∧ doc.origin = "scrape" ∧ doc.createdAt = 3)) :=
  ⟨by decide, rfl, rfl, rfl, by decide,
    c2_update ⟨"t", "v", none, some "2024-04-30", none, none⟩
      ⟨[("v", "v")], [("v", "mid")]⟩ "scrape"
      [("mid_t", ⟨"t", "v", "mid", .ts 5, .ts 9, "pending", "scrape",
        false, false, 3, 3, none⟩)] 7
      ⟨⟨"t", "v", none, some "2024-04-30", none, none⟩, "mid_t", "mid", "v"⟩
      ⟨"t", "v", "mid", .ts 5, .ts 9, "pending", "scrape",
        false, false, 3, 3, none⟩
      (by decide) rfl rfl rfl (by decide)⟩

/-! ## Claim C8: totality and complete accounting -/

theorem Counts.total_add (a b : Counts) :
    (a + b).total = a.total + b.total := by
  simp [Counts.total, Counts.add_def]
  omega

theorem Counts.add_assoc (a b c : Counts) : a + b + c = a + (b + c) := by
  simp [Counts.add_def]
  omega

theorem Counts.zero_add (a : Counts) : (⟨0, 0, 0, 0⟩ : Counts) + a = a := by
  simp [Counts.add_def]

theorem foldl_add_shift (cs : List Counts) (a b : Counts) :
    cs.foldl (· + ·) (a + b) = a + cs.foldl (· + ·) b := by
  induction cs generalizing b with
  | nil => rfl
  | cons c cs ih =>
    simp only [List.foldl_cons]
    rw [Counts.add_assoc, ih]

theorem sumCounts_cons (c : Counts) (cs : List Counts) :
    sumCounts (c :: cs) = c + sumCounts cs := by
  show cs.foldl (· + ·) (⟨0, 0, 0, 0⟩ + c) = _
  have : (⟨0, 0, 0, 0⟩ : Counts) + c = c + ⟨0, 0, 0, 0⟩ := by
    simp [Counts.add_def]
  rw [this, foldl_add_shift]
  rfl

theorem prepPhase_total (m : MuseumMaps) (es : List Scraped) :
    (prepPhase m es).2 + (prepPhase m es).1.length = es.length := by
  induction es with
  | nil => rfl
  | cons e es ih =>
    simp only [prepPhase]
    cases h : prepareExhibition m e <;> simp <;> omega

theorem runTx_total (s : Store) (now : Int) (origin : String)
    (ps : List Prepared) (c : Counts) (ws : List WriteOp)
    (h : runTx s now origin ps = .ok (c, ws)) :
    c.created + c.updated + c.skipped = ps.length ∧ c.errors = 0 := by
  induction ps generalizing c ws with
  | nil =>
    simp [runTx] at h
    rcases h with ⟨h1, h2⟩
    subst h1
    simp [Counts.total]
  | cons p ps ih =>
    simp only [runTx, bind, Except.bind] at h
    cases hd : decideOne s now origin p with
    | error e => rw [hd] at h; exact absurd h (by simp)
    | ok d =>
      rw [hd] at h
      cases hr : runTx s now origin ps with
      | error e => rw [hr] at h; exact absurd h (by simp)
      | ok pr =>
        rcases pr with ⟨c', ws'⟩
        rw [hr] at h
        rcases ih c' ws' hr with ⟨ih1, ih2⟩
        cases d <;>
          (simp only [Except.ok.injEq, Prod.mk.injEq] at h
           rcases h with ⟨hc, hw⟩
           subst hc
           simp only [Counts.add_def, List.length_cons]
           omega)

theorem batch_total (g : List Scraped) (m : MuseumMaps) (origin : String)
    (s : Store) (now : Int) (f : Bool) :
    ((processExhibitionBatch g m origin s now f).counts).total = g.length := by
  have htot := prepPhase_total m g
  rcases hp : prepPhase m g with ⟨ps, errs⟩
  rw [hp] at htot
  dsimp only at htot
  simp only [processExhibitionBatch, hp]
  by_cases he : ps.isEmpty
  · have : ps = [] := List.isEmpty_iff.mp he
    subst this
    simp [he, Counts.total]
    simpa using htot
  · simp only [he, if_false]
    by_cases hf : f
    · simp [hf, Counts.total]
      omega
    · simp only [hf, if_false]
      cases hr : runTx s now origin ps with
      | error e => simp [Counts.total]; omega
      | ok pr =>
        rcases pr with ⟨c, ws⟩
        rcases runTx_total s now origin ps c ws hr with ⟨h1, h2⟩
        simp [Counts.total, Counts.add_def]
        omega

theorem runChunks_counts_total (m : MuseumMaps) (origin : String) (now : Int) :
    ∀ (gs : List (List Scraped)) (s : Store) (fs : List Bool),
    (sumCounts (((runChunks m origin now s gs fs).1).map (·.1))).total =
      (gs.map List.length).sum := by
  intro gs
  induction gs with
  | nil => intro s fs; rfl
  | cons g gs ih =>
    intro s fs
    simp only [runChunks, List.map_cons, sumCounts_cons, Counts.total_add,
      List.sum_cons]
    rw [batch_total, ih]

theorem chunkGo_flatten : ∀ (fuel : Nat) (l : List Scraped),
    l.length ≤ fuel → (chunkGo fuel l).flatten = l := by
  intro fuel
  induction fuel with
  | zero =>
    intro l hl
    have : l = [] := List.eq_nil_of_length_eq_zero (Nat.le_zero.mp hl)
    subst this
    rfl
  | succ fuel ih =>
    intro l hl
    cases l with
    | nil => rfl
    | cons e rest =>
      simp only [chunkGo, List.flatten_cons]
      rw [ih ((e :: rest).drop 100) (by simp at hl ⊢; omega)]
      exact List.take_append_drop 100 (e :: rest)

theorem chunkList_flatten (l : List Scraped) : (chunkList l).flatten = l :=
  chunkGo_flatten l.length l (Nat.le_refl _)

/-- Claim C8: for every list of input records, museum maps, origin, initial
store and pattern of transaction failures, `processScrapeResults` returns a
complete tally: `created + updated + skipped + errors` equals the number of
input records.  (Totality — no exception escaping to the caller — is
reflected in the embedding being a total function: every throw site of the
source is caught, venue failures in the prepare loop, comparator throws
inside the callback, and commit failures by the transaction `catch`.) -/
theorem c8_complete_accounting (es : List Scraped) (m : MuseumMaps)
    (origin : String) (s : Store) (now : Int) (fails : List Bool) :
    Counts.total (processScrapeResults es m origin s now fails).1 =
      es.length := by
  show Counts.total (sumCounts (((runChunks m origin now s (chunkList es)
    fails).1).map (·.1))) = es.length
  rw [runChunks_counts_total]
  calc ((chunkList es).map List.length).sum
      = ((chunkList es).flatten).length := (List.length_flatten _).symm
    _ = es.length := by rw [chunkList_flatten]

/-! ## Claim C7: batching -/

set_option maxRecDepth 400000
set_option maxHeartbeats 4000000
theorem groupIds_eq (m : MuseumMaps) (g : List Scraped) :
    groupIds m g = g.filterMap (recordId m) := by
  induction g with
  | nil => rfl
  | cons e g ih =>
    simp only [groupIds, prepPhase, recordId] at *
    cases h : prepareExhibition m e <;> simp [h, ih, recordId]

theorem prepPhase_all_some (m : MuseumMaps) (g : List Scraped)
    (h : ∀ e ∈ g, (prepareExhibition m e).isSome = true) :
    (prepPhase m g).2 = 0 ∧ (prepPhase m g).1.length = g.length := by
  induction g with
  | nil => exact ⟨rfl, rfl⟩
  | cons e g ih =>
    have he := h e (by simp)
    rcases Option.isSome_iff_exists.mp he with ⟨p, hp⟩
    have hg := ih (fun e' h' => h e' (by simp [h']))
    simp only [prepPhase, hp]
    simp [hg.1, hg.2]

theorem runTx_fresh (s : Store) (now : Int) (origin : String)
    (ps : List Prepared)
    (h : ∀ p ∈ ps, storeLookup s p.documentId = none) :
    runTx s now origin ps =
      .ok (⟨ps.length, 0, 0, 0⟩,
        ps.map (fun p => .set p.documentId (newDoc p origin now))) := by
  induction ps with
  | nil => rfl
  | cons p ps ih =>
    have hp := h p (by simp)
    have hps := ih (fun p' h' => h p' (by simp [h']))
    simp [runTx, decideOne, hp, hps, pure, Except.pure, bind, Except.bind,
      Counts.add_def, Nat.add_comm]

theorem storeLookup_applyWrite_ne (s : Store) (w : WriteOp) (k : String)
    (h : k ≠ w.id) : storeLookup (applyWrite s w) k = storeLookup s k := by
  cases w with
  | set id d => exact storeLookup_set_ne s id k d h
  | update id patch =>
    simp only [applyWrite]
    cases storeLookup s id with
    | some d => exact storeLookup_set_ne s id k _ h
    | none => rfl

theorem storeLookup_applyWrites_notin (ws : List WriteOp) (s : Store)
    (k : String) (h : k ∉ ws.map WriteOp.id) :
    storeLookup (applyWrites s ws) k = storeLookup s k := by
  induction ws generalizing s with
  | nil => rfl
  | cons w ws ih =>
    simp only [List.map_cons, List.mem_cons, not_or] at h
    show storeLookup (applyWrites (applyWrite s w) ws) k = _
    rw [ih (applyWrite s w) h.2, storeLookup_applyWrite_ne s w k h.1]

theorem batch_fresh (g : List Scraped) (m : MuseumMaps) (origin : String)
    (s : Store) (now : Int)
    (hprep : ∀ e ∈ g, (prepareExhibition m e).isSome = true)
    (hfresh : ∀ p ∈ (prepPhase m g).1, storeLookup s p.documentId = none) :
    processExhibitionBatch g m origin s now false =
      ⟨⟨g.length, 0, 0, 0⟩,
        applyWrites s ((prepPhase m g).1.map
          (fun p => .set p.documentId (newDoc p origin now))),
        (prepPhase m g).1.map (fun p => .set p.documentId (newDoc p origin now)),
        !g.isEmpty⟩ := by
  rcases prepPhase_all_some m g hprep with ⟨herr, hlen⟩
  have htx := runTx_fresh s now origin (prepPhase m g).1 hfresh
  rcases hp : prepPhase m g with ⟨ps, errs⟩
  rw [hp] at herr hlen htx
  dsimp only at herr hlen htx
  subst herr
  simp only [processExhibitionBatch, hp]
  by_cases he : ps.isEmpty
  · have hps : ps = [] := List.isEmpty_iff.mp he
    subst hps
    have : g = [] := List.length_eq_zero.mp hlen.symm
    subst this
    simp [applyWrites]
  · have hpsne : ps ≠ [] := fun hh => he (by simp [hh])
    have hgE : g.isEmpty = false := by
      cases g with
      | nil =>
        exfalso
        apply hpsne
        have : ps.length = 0 := by simpa using hlen
        exact List.length_eq_zero.mp this
      | cons _ _ => rfl
    simp [he, htx, Counts.add_def, hlen, hgE]

theorem writeIds_set_map (ps : List Prepared) (origin : String) (now : Int) :
    (ps.map (fun p => WriteOp.set p.documentId (newDoc p origin now))).map
        WriteOp.id = ps.map (·.documentId) := by
  simp only [List.map_map]
  apply List.map_congr_left
  intro p _
  rfl

theorem runChunks_fresh (m : MuseumMaps) (origin : String) (now : Int) :
    ∀ (gs : List (List Scraped)) (s : Store),
    (∀ g ∈ gs, ∀ e ∈ g, (prepareExhibition m e).isSome = true) →
    (∀ g ∈ gs, ∀ k ∈ groupIds m g, storeLookup s k = none) →
    ((gs.map (groupIds m)).flatten).Nodup →
    (runChunks m origin now s gs []).1 =
      gs.map (fun g => ((⟨g.length, 0, 0, 0⟩ : Counts), !g.isEmpty)) := by
  intro gs
  induction gs with
  | nil => intro s _ _ _; rfl
  | cons g gs ih =>
    intro s hprep hfresh hnodup
    have hbatch := batch_fresh g m origin s now (hprep g (by simp))
      (fun p hp => hfresh g (by simp) p.documentId
        (by simp [groupIds]; exact ⟨p, hp, rfl⟩))
    simp only [runChunks, List.headD, List.tail, hbatch]
    have hdisj : ∀ k ∈ (gs.map (groupIds m)).flatten, k ∉ groupIds m g := by
      intro k hk
      simp only [List.map_cons, List.flatten_cons, List.nodup_append] at hnodup
      exact fun hkg => hnodup.2.2 hkg hk
    have hfresh' : ∀ g' ∈ gs, ∀ k ∈ groupIds m g',
        storeLookup (applyWrites s ((prepPhase m g).1.map
          (fun p => .set p.documentId (newDoc p origin now)))) k = none := by
      intro g' hg' k hk
      have hknotg : k ∉ groupIds m g := by
        apply hdisj
        simp only [List.mem_flatten]
        exact ⟨groupIds m g', List.mem_map_of_mem _ hg', hk⟩
      rw [storeLookup_applyWrites_notin]
      · exact hfresh g' (by simp [hg']) k hk
      · rw [writeIds_set_map]
        exact hknotg
    have hnodup' : ((gs.map (groupIds m)).flatten).Nodup := by
      simp only [List.map_cons, List.flatten_cons, List.nodup_append] at hnodup
      exact hnodup.2.1
    rw [ih (applyWrites s ((prepPhase m g).1.map
      (fun p => .set p.documentId (newDoc p origin now))))
      (fun g' hg' => hprep g' (by simp [hg'])) hfresh' hnodup']
    simp

theorem chunkGo_fuel : ∀ (f1 : Nat) (l : List Scraped) (f2 : Nat),
    l.length ≤ f1 → l.length ≤ f2 → chunkGo f1 l = chunkGo f2 l := by
  intro f1
  induction f1 with
  | zero =>
    intro l f2 h1 _
    have : l = [] := List.eq_nil_of_length_eq_zero (Nat.le_zero.mp h1)
    subst this
    cases f2 <;> rfl
  | succ f1 ih =>
    intro l f2 h1 h2
    cases l with
    | nil => cases f2 <;> rfl
    | cons e rest =>
      cases f2 with
      | zero => simp at h2
      | succ f2 =>
        simp only [chunkGo]
        congr 1
        exact ih ((e :: rest).drop 100) f2 (by simp at h1 ⊢; omega)
          (by simp at h2 ⊢; omega)

theorem chunkList_nil : chunkList [] = [] := rfl

theorem chunkList_ne_nil (l : List Scraped) (h : l ≠ []) :
    chunkList l = l.take 100 :: chunkList (l.drop 100) := by
  cases l with
  | nil => exact absurd rfl h
  | cons e rest =>
    show chunkGo (rest.length + 1) (e :: rest) = _
    simp only [chunkGo]
    congr 1
    exact chunkGo_fuel rest.length ((e :: rest).drop 100)
      ((e :: rest).drop 100).length
      (by simp only [List.length_drop, List.length_cons]; omega) (Nat.le_refl _)

theorem chunkList_of_length_150 (l : List Scraped) (h : l.length = 150) :
    chunkList l = [l.take 100, l.drop 100] := by
  have h1 : l ≠ [] := by
    intro hh
    rw [hh] at h
    simp at h
  rw [chunkList_ne_nil l h1]
  have h2 : l.drop 100 ≠ [] := by
    intro hh
    have := congrArg List.length hh
    simp [h] at this
  rw [chunkList_ne_nil _ h2]
  have h3 : (l.drop 100).length = 50 := by simp [h]
  have h4 : (l.drop 100).take 100 = l.drop 100 :=
    List.take_of_length_le (by rw [h3]; omega)
  have h5 : (l.drop 100).drop 100 = [] := by
    apply List.eq_nil_of_length_eq_zero
    simp [List.drop_drop, h]
  rw [h4, h5, chunkList_nil]

/-- Claim C7 counterexample: the claim quantifies over any 150 records that
resolve against a store containing none of their identities, but when records
repeat an identity across the two groups the second group reads the first
group's writes: 150 copies of one record give `created = 100, skipped = 50`,
not `created = 150` (all side conditions of the claim hold for this input, as
the remaining conjuncts show). -/
theorem c7_counterexample :
    (processScrapeResults
        (List.replicate 150 ⟨"t", "v", none, none, none, none⟩)
        ⟨[("v", "v")], [("v", "mid")]⟩ "scrape" [] 7 []).1 =
      ⟨100, 0, 50, 0⟩ ∧
    ((⟨100, 0, 50, 0⟩ : Counts) ≠ ⟨150, 0, 0, 0⟩) ∧
    (List.replicate 150 (⟨"t", "v", none, none, none, none⟩ : Scraped)).length
        = 150 ∧
    (∀ e ∈ List.replicate 150 (⟨"t", "v", none, none, none, none⟩ : Scraped),
      (prepareExhibition ⟨[("v", "v")], [("v", "mid")]⟩ e).isSome = true) ∧
    (∀ e ∈ List.replicate 150 (⟨"t", "v", none, none, none, none⟩ : Scraped),
      ∀ id', recordId ⟨[("v", "v")], [("v", "mid")]⟩ e = some id' →
        storeLookup [] id' = none) := by
  refine ⟨by decide, by decide, by decide, by decide, ?_⟩
  intro e he id' hid
  rfl

/-- Claim C7 (amended): given 150 input records that all resolve successfully,
whose derived identities are pairwise distinct, against a store containing
none of their identities, `processScrapeResults` (group size 100) executes
exactly 2 transactional groups and returns
`created = 150, updated = 0, skipped = 0, errors = 0`. -/
theorem c7_batching (es : List Scraped) (m : MuseumMaps) (origin : String)
    (s : Store) (now : Int)
    (hlen : es.length = 150)
    (hprep : ∀ e ∈ es, (prepareExhibition m e).isSome = true)
    (hnodup : (es.filterMap (recordId m)).Nodup)
    (hfresh : ∀ e ∈ es, ∀ id', recordId m e = some id' →
      storeLookup s id' = none) :
    (processScrapeResults es m origin s now []).1 = ⟨150, 0, 0, 0⟩ ∧
    transactionCount es m origin s now [] = 2 := by
  have hchunk := chunkList_of_length_150 es hlen
  have hmem : ∀ g ∈ [es.take 100, es.drop 100], ∀ e ∈ g, e ∈ es := by
    intro g hg e he
    simp only [List.mem_cons, List.not_mem_nil, or_false] at hg
    rcases hg with hg | hg
    · subst hg; exact List.take_subset _ _ he
    · subst hg; exact List.drop_subset _ _ he
  have hprep' : ∀ g ∈ [es.take 100, es.drop 100], ∀ e ∈ g,
      (prepareExhibition m e).isSome = true :=
    fun g hg e he => hprep e (hmem g hg e he)
  have hfresh' : ∀ g ∈ [es.take 100, es.drop 100], ∀ k ∈ groupIds m g,
      storeLookup s k = none := by
    intro g hg k hk
    rw [groupIds_eq] at hk
    rcases List.mem_filterMap.mp hk with ⟨e, he, hre⟩
    exact hfresh e (hmem g hg e he) k hre
  have hflat : (([es.take 100, es.drop 100].map (groupIds m)).flatten) =
      es.filterMap (recordId m) := by
    simp only [List.map_cons, List.map_nil, List.flatten_cons,
      List.flatten_nil, List.append_nil, groupIds_eq]
    rw [← List.filterMap_append, List.take_append_drop]
  have hnodup' : (([es.take 100, es.drop 100].map (groupIds m)).flatten).Nodup := by
    rw [hflat]; exact hnodup
  have hrc := runChunks_fresh m origin now [es.take 100, es.drop 100] s
    hprep' hfresh' hnodup'
  have hlen1 : (es.take 100).length = 100 := by simp [hlen]
  have hlen2 : (es.drop 100).length = 50 := by simp [hlen]
  have hne1 : (es.take 100).isEmpty = false := by
    cases hq : es.take 100 with
    | nil => rw [hq] at hlen1; simp at hlen1
    | cons _ _ => rfl
  have hne2 : (es.drop 100).isEmpty = false := by
    cases hq : es.drop 100 with
    | nil => rw [hq] at hlen2; simp at hlen2
    | cons _ _ => rfl
  constructor
  · show sumCounts (((runChunks m origin now s (chunkList es) []).1).map (·.1)) =
      ⟨150, 0, 0, 0⟩
    rw [hchunk, hrc]
    simp only [List.map_cons, List.map_nil, hlen1, hlen2]
    rw [sumCounts_cons, sumCounts_cons]
    simp [sumCounts, Counts.add_def]
  · show (((runChunks m origin now s (chunkList es) []).1).filter (·.2)).length = 2
    rw [hchunk, hrc]
    simp [hne1, hne2]

theorem c7_batching_witness :
    ((List.range 150).map (fun i =>
        (⟨"t" ++ toString i, "v", none, none, none, none⟩ : Scraped))).length =
      150 ∧
    (∀ e ∈ (List.range 150).map (fun i =>
        (⟨"t" ++ toString i, "v", none, none, none, none⟩ : Scraped)),
      (prepareExhibition ⟨[("v", "v")], [("v", "mid")]⟩ e).isSome = true) ∧
    (((List.range 150).map (fun i =>
        (⟨"t" ++ toString i, "v", none, none, none, none⟩ : Scraped))).filterMap
      (recordId ⟨[("v", "v")], [("v", "mid")]⟩)).Nodup ∧
    ((processScrapeResults ((List.range 150).map (fun i =>
        (⟨"t" ++ toString i, "v", none, none, none, none⟩ : Scraped)))
        ⟨[("v", "v")], [("v", "mid")]⟩ "scrape" [] 7 []).1 = ⟨150, 0, 0, 0⟩ ∧
      transactionCount ((List.range 150).map (fun i =>
        (⟨"t" ++ toString i, "v", none, none, none, none⟩ : Scraped)))
        ⟨[("v", "v")], [("v", "mid")]⟩ "scrape" [] 7 [] = 2) :=
  ⟨by decide, by decide, by decide,
    c7_batching _ _ "scrape" [] 7 (by decide) (by decide) (by decide)
      (fun e _ id' _ => rfl)⟩

/-! ## Claim C6: atomic group failure -/

theorem decideOne_congr (s t : Store) (now : Int) (origin : String)
    (p : Prepared) (h : storeLookup s p.documentId = storeLookup t p.documentId) :
    decideOne s now origin p = decideOne t now origin p := by
  unfold decideOne
  rw [h]

theorem runTx_congr (s t : Store) (now : Int) (origin : String)
    (ps : List Prepared)
    (h : ∀ p ∈ ps, storeLookup s p.documentId = storeLookup t p.documentId) :
    runTx s now origin ps = runTx t now origin ps := by
  induction ps with
  | nil => rfl
  | cons p ps ih =>
    simp only [runTx]
    rw [decideOne_congr s t now origin p (h p (by simp)),
      ih (fun p' h' => h p' (by simp [h']))]

theorem runTx_writes_ids (s : Store) (now : Int) (origin : String) :
    ∀ (ps : List Prepared) (c : Counts) (ws : List WriteOp),
    runTx s now origin ps = .ok (c, ws) →
    ∀ w ∈ ws, w.id ∈ ps.map (·.documentId) := by
  intro ps
  induction ps with
  | nil =>
    intro c ws h w hw
    simp [runTx] at h
    rcases h with ⟨_, h2⟩
    subst h2
    simp at hw
  | cons p ps ih =>
    intro c ws h w hw
    simp only [runTx, bind, Except.bind] at h
    cases hd : decideOne s now origin p with
    | error e => rw [hd] at h; exact absurd h (by simp)
    | ok d =>
      rw [hd] at h
      cases hr : runTx s now origin ps with
      | error e => rw [hr] at h; exact absurd h (by simp)
      | ok pr =>
        rcases pr with ⟨c', ws'⟩
        rw [hr] at h
        cases d <;>
          (simp only [Except.ok.injEq, Prod.mk.injEq] at h
           rcases h with ⟨_, hw2⟩
           subst hw2) <;>
          simp only [List.mem_cons, List.map_cons] at hw ⊢
        · rcases hw with hw | hw
          · subst hw; simp [WriteOp.id]
          · exact Or.inr (ih c' ws' hr w hw)
        · rcases hw with hw | hw
          · subst hw; simp [WriteOp.id]
          · exact Or.inr (ih c' ws' hr w hw)
        · exact Or.inr (ih c' ws' hr w hw)

theorem batch_store_eq (g : List Scraped) (m : MuseumMaps) (origin : String)
    (s : Store) (now : Int) (f : Bool) :
    (processExhibitionBatch g m origin s now f).store =
      applyWrites s (processExhibitionBatch g m origin s now f).writes := by
  simp only [processExhibitionBatch]
  rcases prepPhase m g with ⟨ps, errs⟩
  by_cases he : ps.isEmpty
  · simp [he, applyWrites]
  · by_cases hf : f
    · simp [he, hf, applyWrites]
    · simp only [he, hf, if_false]
      cases runTx s now origin ps with
      | error e => simp [applyWrites]
      | ok pr => rcases pr with ⟨c, ws⟩; simp

theorem batch_writes_sub (g : List Scraped) (m : MuseumMaps) (origin : String)
    (s : Store) (now : Int) (f : Bool) :
    ∀ w ∈ (processExhibitionBatch g m origin s now f).writes,
      w.id ∈ groupIds m g := by
  intro w hw
  simp only [processExhibitionBatch] at hw
  rcases hp : prepPhase m g with ⟨ps, errs⟩
  rw [hp] at hw
  dsimp only at hw
  by_cases he : ps.isEmpty
  · simp [he] at hw
  · by_cases hf : f
    · simp [he, hf] at hw
    · simp only [he, hf, if_false] at hw
      cases hr : runTx s now origin ps with
      | error e => rw [hr] at hw; simp at hw
      | ok pr =>
        rcases pr with ⟨c, ws⟩
        rw [hr] at hw
        dsimp only at hw
        have := runTx_writes_ids s now origin ps c ws hr w hw
        simpa [groupIds, hp] using this

theorem batch_congr (g : List Scraped) (m : MuseumMaps) (origin : String)
    (s t : Store) (now : Int) (f : Bool)
    (h : ∀ k ∈ groupIds m g, storeLookup s k = storeLookup t k) :
    (processExhibitionBatch g m origin s now f).counts =
        (processExhibitionBatch g m origin t now f).counts ∧
      (processExhibitionBatch g m origin s now f).writes =
        (processExhibitionBatch g m origin t now f).writes ∧
      (processExhibitionBatch g m origin s now f).ranTx =
        (processExhibitionBatch g m origin t now f).ranTx := by
  have htx : runTx s now origin (prepPhase m g).1 =
      runTx t now origin (prepPhase m g).1 := by
    apply runTx_congr
    intro p hp
    exact h p.documentId (by simp [groupIds]; exact ⟨p, hp, rfl⟩)
  simp only [processExhibitionBatch]
  rcases hp : prepPhase m g with ⟨ps, errs⟩
  rw [hp] at htx
  dsimp only at htx
  by_cases he : ps.isEmpty
  · simp [he]
  · by_cases hf : f
    · simp [he, hf]
    · simp only [he, hf, if_false]
      rw [htx]
      cases runTx t now origin ps with
      | error e => simp
      | ok pr => rcases pr with ⟨c, ws⟩; simp

theorem batch_fail (g : List Scraped) (m : MuseumMaps) (origin : String)
    (s : Store) (now : Int) :
    (processExhibitionBatch g m origin s now true).counts =
        ⟨0, 0, 0, g.length⟩ ∧
      (processExhibitionBatch g m origin s now true).store = s ∧
      (processExhibitionBatch g m origin s now true).writes = [] := by
  have htot := prepPhase_total m g
  simp only [processExhibitionBatch]
  rcases hp : prepPhase m g with ⟨ps, errs⟩
  rw [hp] at htot
  dsimp only at htot
  by_cases he : ps.isEmpty
  · have : ps = [] := List.isEmpty_iff.mp he
    subst this
    simp at htot
    simp [he, htot]
  · simp [he]
    omega

theorem applyWrite_agree (J : List String) (s t : Store) (w : WriteOp)
    (hst : ∀ k, k ∉ J → storeLookup s k = storeLookup t k)
    (hw : w.id ∉ J) :
    ∀ k, k ∉ J → storeLookup (applyWrite s w) k = storeLookup (applyWrite t w) k := by
  intro k hk
  cases w with
  | set id d =>
    by_cases hkid : k = id
    · subst hkid
      simp [applyWrite, storeLookup_set_self]
    · simp only [applyWrite]
      rw [storeLookup_set_ne _ _ _ _ hkid, storeLookup_set_ne _ _ _ _ hkid]
      exact hst k hk
  | update id patch =>
    have hid : storeLookup s id = storeLookup t id := hst id hw
    simp only [applyWrite, hid]
    cases storeLookup t id with
    | none => exact hst k hk
    | some d =>
      by_cases hkid : k = id
      · subst hkid
        simp [storeLookup_set_self]
      · rw [storeLookup_set_ne _ _ _ _ hkid, storeLookup_set_ne _ _ _ _ hkid]
        exact hst k hk

theorem applyWrites_agree (J : List String) :
    ∀ (ws : List WriteOp) (s t : Store),
    (∀ k, k ∉ J → storeLookup s k = storeLookup t k) →
    (∀ w ∈ ws, w.id ∉ J) →
    ∀ k, k ∉ J →
      storeLookup (applyWrites s ws) k = storeLookup (applyWrites t ws) k := by
  intro ws
  induction ws with
  | nil => intro s t hst _ k hk; exact hst k hk
  | cons w ws ih =>
    intro s t hst hws k hk
    show storeLookup (applyWrites (applyWrite s w) ws) k = _
    exact ih (applyWrite s w) (applyWrite t w)
      (applyWrite_agree J s t w hst (hws w (by simp)))
      (fun w' h' => hws w' (by simp [h'])) k hk

theorem runChunks_agree (m : MuseumMaps) (origin : String) (now : Int)
    (J : List String) :
    ∀ (gs : List (List Scraped)) (fs : List Bool) (s t : Store),
    (∀ k, k ∉ J → storeLookup s k = storeLookup t k) →
    (∀ g ∈ gs, ∀ k ∈ groupIds m g, k ∉ J) →
    (runChunks m origin now s gs fs).1 = (runChunks m origin now t gs fs).1 := by
  intro gs
  induction gs with
  | nil => intro fs s t _ _; rfl
  | cons g gs ih =>
    intro fs s t hst hgs
    have hids : ∀ k ∈ groupIds m g, k ∉ J := hgs g (by simp)
    have hcong := batch_congr g m origin s t now (fs.headD false)
      (fun k hk => hst k (hids k hk))
    simp only [runChunks]
    rw [hcong.1, hcong.2.2]
    congr 1
    apply ih fs.tail
    · rw [batch_store_eq g m origin s now (fs.headD false),
        batch_store_eq g m origin t now (fs.headD false), hcong.2.1]
      apply applyWrites_agree J _ _ _ hst
      intro w hw
      rw [← hcong.2.1] at hw
      exact hids w.id (batch_writes_sub g m origin s now (fs.headD false) w hw)
    · exact fun g' h' => hgs g' (by simp [h'])

theorem runChunks_append (m : MuseumMaps) (origin : String) (now : Int) :
    ∀ (gs₁ gs₂ : List (List Scraped)) (fs₁ fs₂ : List Bool) (s : Store),
    fs₁.length = gs₁.length →
    runChunks m origin now s (gs₁ ++ gs₂) (fs₁ ++ fs₂) =
      ((runChunks m origin now s gs₁ fs₁).1 ++
        (runChunks m origin now (runChunks m origin now s gs₁ fs₁).2 gs₂ fs₂).1,
       (runChunks m origin now (runChunks m origin now s gs₁ fs₁).2 gs₂ fs₂).2) := by
  intro gs₁
  induction gs₁ with
  | nil =>
    intro gs₂ fs₁ fs₂ s hlen
    have : fs₁ = [] := List.eq_nil_of_length_eq_zero (by simpa using hlen)
    subst this
    simp [runChunks]
  | cons g gs₁ ih =>
    intro gs₂ fs₁ fs₂ s hlen
    cases fs₁ with
    | nil => simp at hlen
    | cons b fs₁ =>
      simp only [List.cons_append, runChunks, List.headD_cons, List.tail_cons,
        List.append_eq]
      rw [ih gs₂ fs₁ fs₂
        ((processExhibitionBatch g m origin s now b).store)
        (by simpa using hlen)]

/-- Claim C6 counterexample: the claim says a failing group's records are the
only ones affected and every other group's counts are unchanged.  With 101
copies of one record (groups of 100 and 1) and the first group's transaction
throwing, the second group's contribution changes from `skipped = 1` (when
group 1 succeeds and creates the document) to `created = 1` (when group 1
fails and the document is missing): another group's counts are affected. -/
theorem c6_counterexample :
    (runChunks ⟨[("v", "v")], [("v", "mid")]⟩ "scrape" 7 []
        (chunkList (List.replicate 101 ⟨"t", "v", none, none, none, none⟩))
        [true]).1 =
      [(⟨0, 0, 0, 100⟩, true), (⟨1, 0, 0, 0⟩, true)] ∧
    (runChunks ⟨[("v", "v")], [("v", "mid")]⟩ "scrape" 7 []
        (chunkList (List.replicate 101 ⟨"t", "v", none, none, none, none⟩))
        []).1 =
      [(⟨100, 0, 0, 0⟩, true), (⟨0, 0, 1, 0⟩, true)] ∧
    ((⟨1, 0, 0, 0⟩ : Counts), true) ≠ ((⟨0, 0, 1, 0⟩ : Counts), true) ∧
    (processScrapeResults (List.replicate 101 ⟨"t", "v", none, none, none, none⟩)
        ⟨[("v", "v")], [("v", "mid")]⟩ "scrape" [] 7 [true]).1 =
      ⟨1, 0, 0, 100⟩ ∧
    (processScrapeResults (List.replicate 101 ⟨"t", "v", none, none, none, none⟩)
        ⟨[("v", "v")], [("v", "mid")]⟩ "scrape" [] 7 []).1 =
      ⟨100, 0, 1, 0⟩ := by
  refine ⟨by decide, by decide, by decide, by decide, by decide⟩

/-- Claim C6 (amended): for every partition of the input produced by the
group loop, if the transaction of one group throws then every record of that
group is counted as an error and the group contributes zero to created,
updated and skipped; the contributions of all preceding groups are unchanged,
and the contributions of the following groups are unchanged provided they
share no derived identity with the failed group (a later duplicate would be
re-created instead of skipped). -/
theorem c6_atomic_failure (es : List Scraped) (m : MuseumMaps)
    (origin : String) (s : Store) (now : Int)
    (gs₁ gs₂ : List (List Scraped)) (gj : List Scraped)
    (fs₁ fs₂ : List Bool)
    (hchunk : chunkList es = gs₁ ++ gj :: gs₂)
    (hlen : fs₁.length = gs₁.length)
    (hdisj : ∀ g ∈ gs₂, ∀ k ∈ groupIds m g, k ∉ groupIds m gj) :
    ∃ cs₁ cs₂ b cj,
      (runChunks m origin now s (chunkList es) (fs₁ ++ true :: fs₂)).1 =
        cs₁ ++ ((⟨0, 0, 0, gj.length⟩ : Counts), b) :: cs₂ ∧
      (runChunks m origin now s (chunkList es) (fs₁ ++ false :: fs₂)).1 =
        cs₁ ++ cj :: cs₂ ∧
      (processScrapeResults es m origin s now (fs₁ ++ true :: fs₂)).1 =
        sumCounts ((cs₁ ++ ((⟨0, 0, 0, gj.length⟩ : Counts), b) :: cs₂).map (·.1)) := by
  rw [hchunk]
  have hT := runChunks_append m origin now gs₁ (gj :: gs₂) fs₁ (true :: fs₂) s hlen
  have hF := runChunks_append m origin now gs₁ (gj :: gs₂) fs₁ (false :: fs₂) s hlen
  set s₁ := (runChunks m origin now s gs₁ fs₁).2 with hs₁
  set cs₁ := (runChunks m origin now s gs₁ fs₁).1 with hcs₁
  have hfail := batch_fail gj m origin s₁ now
  -- the failing run at the group gj
  have hTj : runChunks m origin now s₁ (gj :: gs₂) (true :: fs₂) =
      ((⟨0, 0, 0, gj.length⟩, (processExhibitionBatch gj m origin s₁ now
          true).ranTx) ::
        (runChunks m origin now s₁ gs₂ fs₂).1,
       (runChunks m origin now s₁ gs₂ fs₂).2) := by
    simp only [runChunks, List.headD_cons, List.tail_cons, hfail.1, hfail.2.1]
  -- the succeeding run at the group gj
  set rj := processExhibitionBatch gj m origin s₁ now false with hrj
  have hFj : runChunks m origin now s₁ (gj :: gs₂) (false :: fs₂) =
      ((rj.counts, rj.ranTx) :: (runChunks m origin now rj.store gs₂ fs₂).1,
       (runChunks m origin now rj.store gs₂ fs₂).2) := by
    simp only [runChunks, List.headD_cons, List.tail_cons]
  -- the suffix groups observe stores agreeing outside gj's identities
  have hagree : (runChunks m origin now s₁ gs₂ fs₂).1 =
      (runChunks m origin now rj.store gs₂ fs₂).1 := by
    apply runChunks_agree m origin now (groupIds m gj) gs₂ fs₂ s₁ rj.store _
      hdisj
    intro k hk
    rw [hrj, batch_store_eq]
    rw [storeLookup_applyWrites_notin]
    intro hmem
    rcases List.mem_map.mp hmem with ⟨w, hw, hwid⟩
    exact hk (hwid ▸ batch_writes_sub gj m origin s₁ now false w hw)
  refine ⟨cs₁, (runChunks m origin now s₁ gs₂ fs₂).1,
    (processExhibitionBatch gj m origin s₁ now true).ranTx,
    (rj.counts, rj.ranTx), ?_, ?_, ?_⟩
  · rw [hT, hTj]
  · rw [hF, hFj, hagree]
  · show sumCounts (((runChunks m origin now s (chunkList es)
        (fs₁ ++ true :: fs₂)).1).map (·.1)) = _
    rw [hchunk, hT, hTj]

theorem c6_atomic_failure_witness :
    chunkList [⟨"a", "v", none, none, none, none⟩,
        ⟨"b", "v", none, none, none, none⟩] =
      [] ++ [(⟨"a", "v", none, none, none, none⟩ : Scraped),
        ⟨"b", "v", none, none, none, none⟩] :: [] ∧
    ([] : List Bool).length = ([] : List (List Scraped)).length ∧
    (∃ cs₁ cs₂ b cj,
      (runChunks ⟨[("v", "v")], [("v", "mid")]⟩ "scrape" 7 []
          (chunkList [⟨"a", "v", none, none, none, none⟩,
            ⟨"b", "v", none, none, none, none⟩]) ([] ++ true :: [])).1 =
        cs₁ ++ ((⟨0, 0, 0,
          ([(⟨"a", "v", none, none, none, none⟩ : Scraped),
            ⟨"b", "v", none, none, none, none⟩]).length⟩ : Counts), b) :: cs₂ ∧
      (runChunks ⟨[("v", "v")], [("v", "mid")]⟩ "scrape" 7 []
          (chunkList [⟨"a", "v", none, none, none, none⟩,
            ⟨"b", "v", none, none, none, none⟩]) ([] ++ false :: [])).1 =
        cs₁ ++ cj :: cs₂ ∧
      (processScrapeResults [⟨"a", "v", none, none, none, none⟩,
          ⟨"b", "v", none, none, none, none⟩]
          ⟨[("v", "v")], [("v", "mid")]⟩ "scrape" [] 7 ([] ++ true :: [])).1 =
        sumCounts ((cs₁ ++ ((⟨0, 0, 0,
          ([(⟨"a", "v", none, none, none, none⟩ : Scraped),
            ⟨"b", "v", none, none, none, none⟩]).length⟩ : Counts), b) ::
          cs₂).map (·.1))) :=
  ⟨rfl, rfl,
    c6_atomic_failure [⟨"a", "v", none, none, none, none⟩,
        ⟨"b", "v", none, none, none, none⟩]
      ⟨[("v", "v")], [("v", "mid")]⟩ "scrape" [] 7 [] []
      [⟨"a", "v", none, none, none, none⟩, ⟨"b", "v", none, none, none, none⟩]
      [] [] rfl rfl (by simp)⟩

/-! ## Claim C10: per-record vs batched implementation -/

theorem storeDates_fetch (s : Store) (k : String) :
    mapGet (fetchExistingExhibitions s) k = storeDates s k := by
  induction s with
  | nil => rfl
  | cons p rest ih =>
    rcases p with ⟨k', d⟩
    by_cases h : k' = k
    · subst h
      simp [fetchExistingExhibitions, mapGet, storeDates, storeLookup,
        List.find?]
    · have e1 : List.find? (fun q => q.1 = k)
          ((k', (d.startDate, d.endDate)) :: fetchExistingExhibitions rest) =
          List.find? (fun q => q.1 = k) (fetchExistingExhibitions rest) :=
        List.find?_cons_of_neg _ (by simp [h])
      have e2 : List.find? (fun q => q.1 = k) ((k', d) :: rest) =
          List.find? (fun q => q.1 = k) rest :=
        List.find?_cons_of_neg _ (by simp [h])
      show mapGet ((k', (d.startDate, d.endDate)) ::
          fetchExistingExhibitions rest) k = _
      simp only [mapGet, storeDates, storeLookup] at ih ⊢
      rw [e1, e2]
      exact ih

theorem sumCounts_append (a b : List Counts) :
    sumCounts (a ++ b) = sumCounts a + sumCounts b := by
  induction a with
  | nil => simp [sumCounts, List.foldl, Counts.zero_add]
  | cons c a ih =>
    simp only [List.cons_append, sumCounts_cons, ih, Counts.add_assoc]

theorem refCounts_cons (look : String → Option (DateVal × DateVal))
    (m : MuseumMaps) (e : Scraped) (es : List Scraped) :
    refCounts look m (e :: es) =
      classCounts (classify look m e) + refCounts look m es := by
  simp [refCounts, sumCounts_cons]

theorem refCounts_append (look : String → Option (DateVal × DateVal))
    (m : MuseumMaps) (es₁ es₂ : List Scraped) :
    refCounts look m (es₁ ++ es₂) =
      refCounts look m es₁ + refCounts look m es₂ := by
  simp [refCounts, sumCounts_append]

theorem theWriter_append (look : String → Option (DateVal × DateVal))
    (m : MuseumMaps) (es₁ es₂ : List Scraped) (k : String) :
    theWriter look m (es₁ ++ es₂) k =
      match theWriter look m es₁ k with
      | none => theWriter look m es₂ k
      | some w => some w := by
  induction es₁ with
  | nil => simp [theWriter]
  | cons e es₁ ih =>
    simp only [List.cons_append, theWriter]
    cases prepareExhibition m e with
    | none => exact ih
    | some p =>
      by_cases hk : p.documentId = k
      · simp only [hk, if_true]
        cases look k with
        | none => rfl
        | some sded =>
          rcases sded with ⟨sd, ed⟩
          by_cases hd : (datesEqWf sd p.exhibition.startDate &&
              datesEqWf ed p.exhibition.endDate) = true
          · simp [hd, ih]
          · simp only [Bool.not_eq_true] at hd
            simp [hd]
      · simp [hk, ih]

theorem theWriter_mem (look : String → Option (DateVal × DateVal))
    (m : MuseumMaps) :
    ∀ (es : List Scraped) (k : String) (w : WriteKind),
    theWriter look m es k = some w → k ∈ es.filterMap (recordId m) := by
  intro es
  induction es with
  | nil => intro k w h; simp [theWriter] at h
  | cons e es ih =>
    intro k w h
    simp only [theWriter] at h
    simp only [List.filterMap_cons]
    cases hp : prepareExhibition m e with
    | none =>
      rw [hp] at h
      simp [recordId, hp, ih k w h]
    | some p =>
      rw [hp] at h
      simp only [recordId, hp, Option.map_some]
      by_cases hk : p.documentId = k
      · simp [hk]
      · simp only [hk, if_false] at h
        simp [ih k w h]

theorem theWriter_update_look (look : String → Option (DateVal × DateVal))
    (m : MuseumMaps) :
    ∀ (es : List Scraped) (k : String) (p : Prepared),
    theWriter look m es k = some (.updateW p) →
    ∃ sd ed, look k = some (sd, ed) := by
  intro es
  induction es with
  | nil => intro k p h; simp [theWriter] at h
  | cons e es ih =>
    intro k p h
    simp only [theWriter] at h
    cases hp : prepareExhibition m e with
    | none => rw [hp] at h; exact ih k p h
    | some p' =>
      rw [hp] at h
      by_cases hk : p'.documentId = k
      · simp only [hk, if_true] at h
        cases hl : look k with
        | none => rw [hl] at h; simp at h
        | some sded =>
          rcases sded with ⟨sd, ed⟩
          exact ⟨sd, ed, rfl⟩
      · simp only [hk, if_false] at h
        exact ih k p h

theorem txWrites_ids (look : String → Option (DateVal × DateVal))
    (m : MuseumMaps) (origin : String) (now : Int) :
    ∀ (es : List Scraped) (w : WriteOp),
    w ∈ txWrites look m origin now es → w.id ∈ es.filterMap (recordId m) := by
  intro es
  induction es with
  | nil => intro w h; simp [txWrites] at h
  | cons e es ih =>
    intro w h
    simp only [txWrites] at h
    simp only [List.filterMap_cons]
    cases hp : prepareExhibition m e with
    | none =>
      rw [hp] at h
      simp [recordId, hp, ih w h]
    | some p =>
      rw [hp] at h
      dsimp only at h
      simp only [recordId, hp, Option.map_some]
      cases hl : look p.documentId with
      | none =>
        rw [hl] at h
        simp only [List.mem_cons] at h
        rcases h with h | h
        · subst h; simp [WriteOp.id]
        · simp [ih w h]
      | some sded =>
        rcases sded with ⟨sd, ed⟩
        rw [hl] at h
        by_cases hd : (datesEqWf sd p.exhibition.startDate &&
            datesEqWf ed p.exhibition.endDate) = true
        · simp only [hd, if_true] at h
          simp [ih w h]
        · simp only [Bool.not_eq_true] at hd
          simp only [hd, Bool.false_eq_true, if_false, List.mem_cons] at h
          rcases h with h | h
          · subst h; simp [WriteOp.id]
          · simp [ih w h]

theorem processExhibitionPR_char (exMap : JsMap (DateVal × DateVal))
    (m : MuseumMaps) (origin : String) (now : Int) (e : Scraped)
    (hwf : ∀ k sd ed, mapGet exMap k = some (sd, ed) →
      sd.wf = true ∧ ed.wf = true) :
    processExhibitionPR exMap m origin now e =
      match prepareExhibition m e with
      | none => .error "NotFoundError"
      | some p =>
        match mapGet exMap p.documentId with
        | none => .ok (.created (newDocPR p origin now), p.documentId)
        | some (sd, ed) =>
          if datesEqWf sd p.exhibition.startDate &&
              datesEqWf ed p.exhibition.endDate then
            .ok (.skipped, p.documentId)
          else
            .ok (.updated ⟨some ((dateWrite p.exhibition.startDate).getD (.str "")),
              some ((dateWrite p.exhibition.endDate).getD (.str "")), now⟩,
              p.documentId) := by
  cases hp : prepareExhibition m e with
  | none => simp [processExhibitionPR, hp]
  | some p =>
    have hpe := prepareExhibition_exhibition m e p hp
    cases hl : mapGet exMap p.documentId with
    | none => simp [processExhibitionPR, hp, hl]
    | some sded =>
      rcases sded with ⟨sd, ed⟩
      rcases hwf p.documentId sd ed hl with ⟨hw1, hw2⟩
      simp only [processExhibitionPR, hp, hl, hpe,
        areDatesEqual_wf sd e.startDate hw1,
        areDatesEqual_wf ed e.endDate hw2, bind, Except.bind]

theorem runPR_counts (exMap : JsMap (DateVal × DateVal)) (m : MuseumMaps)
    (origin : String) (now : Int)
    (hwf : ∀ k sd ed, mapGet exMap k = some (sd, ed) →
      sd.wf = true ∧ ed.wf = true) :
    ∀ (es : List Scraped) (t : Store),
    (runPR exMap m origin now es t).1 = refCounts (mapGet exMap) m es := by
  intro es
  induction es with
  | nil => intro t; rfl
  | cons e es ih =>
    intro t
    rw [show refCounts (mapGet exMap) m (e :: es) =
      classCounts (classify (mapGet exMap) m e) +
        refCounts (mapGet exMap) m es from refCounts_cons _ _ _ _]
    simp only [runPR, processExhibitionPR_char exMap m origin now e hwf]
    cases hp : prepareExhibition m e with
    | none => simp [classify, classCounts, hp, ih]
    | some p =>
      cases hl : mapGet exMap p.documentId with
      | none => simp [classify, classCounts, hp, hl, ih]
      | some sded =>
        rcases sded with ⟨sd, ed⟩
        by_cases hd : (datesEqWf sd p.exhibition.startDate &&
            datesEqWf ed p.exhibition.endDate) = true
        · simp [classify, classCounts, hp, hl, hd, ih]
        · simp only [Bool.not_eq_true] at hd
          simp [classify, classCounts, hp, hl, hd, ih]

theorem runPR_store (exMap : JsMap (DateVal × DateVal)) (m : MuseumMaps)
    (origin : String) (now : Int)
    (hwf : ∀ k sd ed, mapGet exMap k = some (sd, ed) →
      sd.wf = true ∧ ed.wf = true) :
    ∀ (es : List Scraped) (t : Store) (k : String),
    (es.filterMap (recordId m)).Nodup →
    storeLookup (runPR exMap m origin now es t).2 k =
      match theWriter (mapGet exMap) m es k with
      | none => storeLookup t k
      | some (.createW p) => some (newDocPR p origin now)
      | some (.updateW p) =>
        match storeLookup t k with
        | some d => some (applyPatch d
            ⟨some ((dateWrite p.exhibition.startDate).getD (.str "")),
             some ((dateWrite p.exhibition.endDate).getD (.str "")), now⟩)
        | none => storeLookup t k := by
  intro es
  induction es with
  | nil => intro t k _; rfl
  | cons e es ih =>
    intro t k hnodup
    simp only [runPR, processExhibitionPR_char exMap m origin now e hwf]
    cases hp : prepareExhibition m e with
    | none =>
      have hnd : (es.filterMap (recordId m)).Nodup := by
        simpa [List.filterMap_cons, recordId, hp] using hnodup
      simp only [theWriter, hp]
      exact ih t k hnd
    | some p =>
      have hnd : (es.filterMap (recordId m)).Nodup := by
        have : ((e :: es).filterMap (recordId m)) =
            p.documentId :: es.filterMap (recordId m) := by
          simp [List.filterMap_cons, recordId, hp]
        rw [this] at hnodup
        exact hnodup.of_cons
      have hnotin : p.documentId ∉ es.filterMap (recordId m) := by
        have : ((e :: es).filterMap (recordId m)) =
            p.documentId :: es.filterMap (recordId m) := by
          simp [List.filterMap_cons, recordId, hp]
        rw [this] at hnodup
        exact (List.nodup_cons.mp hnodup).1
      cases hl : mapGet exMap p.documentId with
      | none =>
        -- created
        by_cases hk : p.documentId = k
        · subst hk
          have hwnone : theWriter (mapGet exMap) m es p.documentId = none := by
            cases hw : theWriter (mapGet exMap) m es p.documentId with
            | none => rfl
            | some w =>
              exact absurd (theWriter_mem _ m es p.documentId w hw) hnotin
          simp only [theWriter, hp, if_pos rfl, hl]
          rw [ih _ _ hnd, hwnone]
          simp [storeLookup_set_self]
        · simp only [theWriter, hp, hl, if_neg hk]
          rw [ih _ _ hnd]
          have hset : storeLookup (storeSet t p.documentId
              (newDocPR p origin now)) k = storeLookup t k :=
            storeLookup_set_ne _ _ _ _ (Ne.symm hk)
          cases theWriter (mapGet exMap) m es k with
          | none => exact hset
          | some w =>
            cases w with
            | createW q => rfl
            | updateW q =>
              dsimp only
              rw [hset]
      | some sded =>
        rcases sded with ⟨sd, ed⟩
        by_cases hd : (datesEqWf sd p.exhibition.startDate &&
            datesEqWf ed p.exhibition.endDate) = true
        · -- skipped
          simp only [hd, if_true]
          by_cases hk : p.documentId = k
          · subst hk
            simp only [theWriter, hp, if_pos rfl, hl, hd, if_true]
            exact ih t _ hnd
          · simp only [theWriter, hp, hl, hd, if_neg hk]
            exact ih t k hnd
        · -- updated
          simp only [Bool.not_eq_true] at hd
          simp only [hd, Bool.false_eq_true, if_false]
          by_cases hk : p.documentId = k
          · subst hk
            have hwnone : theWriter (mapGet exMap) m es p.documentId = none := by
              cases hw : theWriter (mapGet exMap) m es p.documentId with
              | none => rfl
              | some w =>
                exact absurd (theWriter_mem _ m es p.documentId w hw) hnotin
            simp only [theWriter, hp, if_pos rfl, hl, hd, Bool.false_eq_true,
              if_false]
            rw [ih _ _ hnd, hwnone]
            simp only [applyWrite]
            cases hlt : storeLookup t p.documentId with
            | none => simp [hlt]
            | some d => simp [hlt, storeLookup_set_self]
          · simp only [theWriter, hp, hl, hd, Bool.false_eq_true, if_false,
              if_neg hk]
            rw [ih _ _ hnd]
            have hpres : storeLookup (applyWrite t (.update p.documentId
                ⟨some ((dateWrite p.exhibition.startDate).getD (.str "")),
                 some ((dateWrite p.exhibition.endDate).getD (.str "")), now⟩)) k =
                storeLookup t k :=
              storeLookup_applyWrite_ne t _ k (Ne.symm hk)
            cases theWriter (mapGet exMap) m es k with
            | none => exact hpres
            | some w =>
              cases w with
              | createW q => rfl
              | updateW q =>
                dsimp only
                rw [hpres]

theorem runTx_char (s0 : Store) (m : MuseumMaps) (origin : String) (now : Int)
    (hwf : wfStore s0) :
    ∀ (g : List Scraped) (sg : Store),
    (∀ p ∈ (prepPhase m g).1,
      storeLookup sg p.documentId = storeLookup s0 p.documentId) →
    ∃ c, runTx sg now origin (prepPhase m g).1 =
        .ok (c, txWrites (storeDates s0) m origin now g) ∧
      c + ⟨0, 0, 0, (prepPhase m g).2⟩ = refCounts (storeDates s0) m g := by
  intro g
  induction g with
  | nil =>
    intro sg _
    exact ⟨⟨0, 0, 0, 0⟩, rfl,
      by simp [prepPhase, refCounts, sumCounts, Counts.add_def]⟩
  | cons e g ih =>
    intro sg hagree
    cases hp : prepareExhibition m e with
    | none =>
      have hagree' : ∀ p ∈ (prepPhase m g).1,
          storeLookup sg p.documentId = storeLookup s0 p.documentId := by
        intro p hmem
        apply hagree
        simp [prepPhase, hp, hmem]
      rcases ih sg hagree' with ⟨c, hc1, hc2⟩
      have hcl : classify (storeDates s0) m e = .errored := by
        simp [classify, hp]
      refine ⟨c, ?_, ?_⟩
      · simp only [prepPhase, hp]
        simpa [txWrites, hp] using hc1
      · rw [refCounts_cons, hcl, ← hc2]
        simp only [prepPhase, hp]
        simp [Counts.add_def, classCounts]
        omega
    | some p =>
      have hmemp : p ∈ (prepPhase m (e :: g)).1 := by simp [prepPhase, hp]
      have hagree' : ∀ q ∈ (prepPhase m g).1,
          storeLookup sg q.documentId = storeLookup s0 q.documentId := by
        intro q hmem
        apply hagree
        simp [prepPhase, hp, hmem]
      rcases ih sg hagree' with ⟨c, hc1, hc2⟩
      have hATp := hagree p hmemp
      cases hl : storeLookup s0 p.documentId with
      | none =>
        have hcl : classify (storeDates s0) m e = .created := by
          simp [classify, hp, storeDates, hl]
        refine ⟨⟨1, 0, 0, 0⟩ + c, ?_, ?_⟩
        · simp only [prepPhase, hp]
          simp only [runTx, decideOne, hATp, hl, hc1, pure, Except.pure, bind,
            Except.bind]
          simp [txWrites, hp, storeDates, hl]
        · rw [refCounts_cons, hcl, ← hc2]
          simp only [prepPhase, hp]
          simp [Counts.add_def, classCounts]
      | some d =>
        rcases hwf p.documentId d.startDate d.endDate
          (by simp [storeDates, hl]) with ⟨hw1, hw2⟩
        by_cases hd : (datesEqWf d.startDate p.exhibition.startDate &&
            datesEqWf d.endDate p.exhibition.endDate) = true
        · have hcl : classify (storeDates s0) m e = .skipped := by
            simp only [classify, hp, storeDates, hl]
            dsimp only [Option.map]
            rw [hd]
            rfl
          refine ⟨⟨0, 0, 1, 0⟩ + c, ?_, ?_⟩
          · simp only [prepPhase, hp]
            simp only [runTx, decideOne, hATp, hl, hc1,
              areDatesEqual_wf _ _ hw1, areDatesEqual_wf _ _ hw2, pure,
              Except.pure, bind, Except.bind]
            rw [hd]
            have htx : txWrites (storeDates s0) m origin now (e :: g) =
                txWrites (storeDates s0) m origin now g := by
              simp only [txWrites, hp, storeDates, hl]
              dsimp only [Option.map]
              rw [hd]
              rfl
            rw [htx]
            rfl
          · rw [refCounts_cons, hcl, ← hc2]
            simp only [prepPhase, hp]
            simp [Counts.add_def, classCounts]
        · simp only [Bool.not_eq_true] at hd
          have hcl : classify (storeDates s0) m e = .updated := by
            simp only [classify, hp, storeDates, hl]
            dsimp only [Option.map]
            rw [hd]
            rfl
          refine ⟨⟨0, 1, 0, 0⟩ + c, ?_, ?_⟩
          · simp only [prepPhase, hp]
            simp only [runTx, decideOne, hATp, hl, hc1,
              areDatesEqual_wf _ _ hw1, areDatesEqual_wf _ _ hw2, pure,
              Except.pure, bind, Except.bind]
            rw [hd]
            have htx : txWrites (storeDates s0) m origin now (e :: g) =
                .update p.documentId ⟨dateWrite p.exhibition.startDate,
                  dateWrite p.exhibition.endDate, now⟩ ::
                txWrites (storeDates s0) m origin now g := by
              simp only [txWrites, hp, storeDates, hl]
              dsimp only [Option.map]
              rw [hd]
              rfl
            rw [htx]
            rfl
          · rw [refCounts_cons, hcl, ← hc2]
            simp only [prepPhase, hp]
            simp [Counts.add_def, classCounts]

theorem applyWrites_txWrites (look : String → Option (DateVal × DateVal))
    (m : MuseumMaps) (origin : String) (now : Int) :
    ∀ (g : List Scraped) (t : Store) (k : String),
    (g.filterMap (recordId m)).Nodup →
    storeLookup (applyWrites t (txWrites look m origin now g)) k =
      match theWriter look m g k with
      | none => storeLookup t k
      | some (.createW p) => some (newDoc p origin now)
      | some (.updateW p) =>
        match storeLookup t k with
        | some d => some (applyPatch d ⟨dateWrite p.exhibition.startDate,
            dateWrite p.exhibition.endDate, now⟩)
        | none => storeLookup t k := by
  intro g
  induction g with
  | nil => intro t k _; rfl
  | cons e g ih =>
    intro t k hnodup
    cases hp : prepareExhibition m e with
    | none =>
      have hnd : (g.filterMap (recordId m)).Nodup := by
        simpa [List.filterMap_cons, recordId, hp] using hnodup
      simp only [txWrites, theWriter, hp]
      exact ih t k hnd
    | some p =>
      have hcons : ((e :: g).filterMap (recordId m)) =
          p.documentId :: g.filterMap (recordId m) := by
        simp [List.filterMap_cons, recordId, hp]
      have hnd : (g.filterMap (recordId m)).Nodup := by
        rw [hcons] at hnodup
        exact hnodup.of_cons
      have hnotin : p.documentId ∉ g.filterMap (recordId m) := by
        rw [hcons] at hnodup
        exact (List.nodup_cons.mp hnodup).1
      cases hl : look p.documentId with
      | none =>
        -- create write
        simp only [txWrites, theWriter, hp, hl]
        show storeLookup (applyWrites
          (storeSet t p.documentId (newDoc p origin now))
          (txWrites look m origin now g)) k = _
        by_cases hk : p.documentId = k
        · subst hk
          have hwnone : theWriter look m g p.documentId = none := by
            cases hw : theWriter look m g p.documentId with
            | none => rfl
            | some w =>
              exact absurd (theWriter_mem _ m g p.documentId w hw) hnotin
          rw [ih _ _ hnd, hwnone, if_pos rfl, hl]
          simp [storeLookup_set_self]
        · have hset : storeLookup (storeSet t p.documentId
              (newDoc p origin now)) k = storeLookup t k :=
            storeLookup_set_ne _ _ _ _ (Ne.symm hk)
          rw [ih _ _ hnd, if_neg hk]
          cases theWriter look m g k with
          | none => exact hset
          | some w =>
            cases w with
            | createW q => rfl
            | updateW q =>
              dsimp only
              rw [hset]
      | some sded =>
        rcases sded with ⟨sd, ed⟩
        by_cases hd : (datesEqWf sd p.exhibition.startDate &&
            datesEqWf ed p.exhibition.endDate) = true
        · -- skip: no write emitted
          have htx : txWrites look m origin now (e :: g) =
              txWrites look m origin now g := by
            simp only [txWrites, hp, hl]
            rw [hd]
            rfl
          have hwr : theWriter look m (e :: g) k =
              theWriter look m g k := by
            simp only [theWriter, hp]
            by_cases hk : p.documentId = k
            · rw [if_pos hk, ← hk, hl]
              dsimp only
              rw [hd]
              rfl
            · rw [if_neg hk]
          rw [htx, hwr]
          exact ih t k hnd
        · -- update write
          simp only [Bool.not_eq_true] at hd
          have htx : txWrites look m origin now (e :: g) =
              .update p.documentId ⟨dateWrite p.exhibition.startDate,
                dateWrite p.exhibition.endDate, now⟩ ::
              txWrites look m origin now g := by
            simp only [txWrites, hp, hl]
            rw [hd]
            rfl
          rw [htx]
          show storeLookup (applyWrites (applyWrite t
            (.update p.documentId ⟨dateWrite p.exhibition.startDate,
              dateWrite p.exhibition.endDate, now⟩))
            (txWrites look m origin now g)) k = _
          by_cases hk : p.documentId = k
          · subst hk
            have hwnone : theWriter look m g p.documentId = none := by
              cases hw : theWriter look m g p.documentId with
              | none => rfl
              | some w =>
                exact absurd (theWriter_mem _ m g p.documentId w hw) hnotin
            have hwr : theWriter look m (e :: g) p.documentId =
                some (.updateW p) := by
              simp only [theWriter, hp, if_pos rfl, hl]
              rw [hd]
              rfl
            rw [ih _ _ hnd, hwnone, hwr]
            simp only [applyWrite]
            cases hlt : storeLookup t p.documentId with
            | none => simp [hlt]
            | some d => simp [hlt, storeLookup_set_self]
          · have hwr : theWriter look m (e :: g) k = theWriter look m g k := by
              simp only [theWriter, hp, if_neg hk]
            have hpres : storeLookup (applyWrite t
                (.update p.documentId ⟨dateWrite p.exhibition.startDate,
                  dateWrite p.exhibition.endDate, now⟩)) k =
                storeLookup t k :=
              storeLookup_applyWrite_ne t _ k (Ne.symm hk)
            rw [ih _ _ hnd, hwr]
            cases theWriter look m g k with
            | none => exact hpres
            | some w =>
              cases w with
              | createW q => rfl
              | updateW q =>
                dsimp only
                rw [hpres]

theorem prepPhase_id_mem (m : MuseumMaps) (g : List Scraped) (p : Prepared)
    (h : p ∈ (prepPhase m g).1) : p.documentId ∈ g.filterMap (recordId m) := by
  rw [← groupIds_eq]
  exact List.mem_map_of_mem _ h

theorem batch_char (s0 : Store) (m : MuseumMaps) (origin : String) (now : Int)
    (hwf : wfStore s0) (g : List Scraped) (sg : Store)
    (hagree : ∀ p ∈ (prepPhase m g).1,
      storeLookup sg p.documentId = storeLookup s0 p.documentId) :
    (processExhibitionBatch g m origin sg now false).counts =
        refCounts (storeDates s0) m g ∧
      (processExhibitionBatch g m origin sg now false).store =
        applyWrites sg (txWrites (storeDates s0) m origin now g) := by
  rcases runTx_char s0 m origin now hwf g sg hagree with ⟨c, hc1, hc2⟩
  simp only [processExhibitionBatch]
  rcases hp : prepPhase m g with ⟨ps, errs⟩
  rw [hp] at hc1 hc2
  dsimp only at hc1 hc2
  by_cases he : ps.isEmpty
  · have hps : ps = [] := List.isEmpty_iff.mp he
    subst hps
    have h0 : runTx sg now origin ([] : List Prepared) =
        .ok (⟨0, 0, 0, 0⟩, []) := rfl
    rw [h0] at hc1
    simp only [Except.ok.injEq, Prod.mk.injEq] at hc1
    rcases hc1 with ⟨hc0, htw⟩
    simp only [he, if_true]
    constructor
    · rw [← hc2, ← hc0]
      simp [Counts.add_def]
    · rw [← htw]
      rfl
  · simp only [he, if_false, Bool.false_eq_true, hc1]
    exact ⟨hc2, by trivial⟩

theorem filterMap_flatten_comm {α β : Type} (f : α → Option β) :
    ∀ (L : List (List α)),
    (L.flatten).filterMap f = (L.map (List.filterMap f)).flatten := by
  intro L
  induction L with
  | nil => rfl
  | cons l L ih =>
    simp only [List.flatten_cons, List.filterMap_append, List.map_cons, ih]

theorem runChunks_char (s0 : Store) (m : MuseumMaps) (origin : String)
    (now : Int) (hwf : wfStore s0) :
    ∀ (gs : List (List Scraped)) (t : Store),
    (∀ g ∈ gs, ∀ p ∈ (prepPhase m g).1,
      storeLookup t p.documentId = storeLookup s0 p.documentId) →
    ((gs.map (fun g => g.filterMap (recordId m))).flatten).Nodup →
    sumCounts (((runChunks m origin now t gs []).1).map (·.1)) =
        refCounts (storeDates s0) m gs.flatten ∧
      ∀ k, storeLookup (runChunks m origin now t gs []).2 k =
        match theWriter (storeDates s0) m gs.flatten k with
        | none => storeLookup t k
        | some (.createW p) => some (newDoc p origin now)
        | some (.updateW p) =>
          match storeLookup s0 k with
          | some d => some (applyPatch d ⟨dateWrite p.exhibition.startDate,
              dateWrite p.exhibition.endDate, now⟩)
          | none => storeLookup t k := by
  intro gs
  induction gs with
  | nil =>
    intro t _ _
    exact ⟨rfl, fun k => rfl⟩
  | cons g gs ih =>
    intro t hagree hnodup
    simp only [List.map_cons, List.flatten_cons, List.nodup_append] at hnodup
    rcases hnodup with ⟨hnd_g, hnd_rest, hdisj⟩
    have hag_g : ∀ p ∈ (prepPhase m g).1,
        storeLookup t p.documentId = storeLookup s0 p.documentId :=
      hagree g (by simp)
    rcases batch_char s0 m origin now hwf g t hag_g with ⟨hbc, hbs⟩
    have hlookup_after : ∀ k,
        storeLookup (processExhibitionBatch g m origin t now false).store k =
          match theWriter (storeDates s0) m g k with
          | none => storeLookup t k
          | some (.createW p) => some (newDoc p origin now)
          | some (.updateW p) =>
            match storeLookup t k with
            | some d => some (applyPatch d ⟨dateWrite p.exhibition.startDate,
                dateWrite p.exhibition.endDate, now⟩)
            | none => storeLookup t k := by
      intro k
      rw [hbs]
      exact applyWrites_txWrites (storeDates s0) m origin now g t k hnd_g
    have hagree' : ∀ g' ∈ gs, ∀ p ∈ (prepPhase m g').1,
        storeLookup (processExhibitionBatch g m origin t now false).store
          p.documentId = storeLookup s0 p.documentId := by
      intro g' hg' p hp
      have hmem : p.documentId ∈ g'.filterMap (recordId m) :=
        prepPhase_id_mem m g' p hp
      have hrest : p.documentId ∈
          (gs.map (fun g => g.filterMap (recordId m))).flatten := by
        simp only [List.mem_flatten]
        exact ⟨g'.filterMap (recordId m), List.mem_map_of_mem _ hg', hmem⟩
      have hng : p.documentId ∉ g.filterMap (recordId m) :=
        fun hh => hdisj hh hrest
      have hwnone : theWriter (storeDates s0) m g p.documentId = none := by
        cases hw : theWriter (storeDates s0) m g p.documentId with
        | none => rfl
        | some w =>
          exact absurd (theWriter_mem _ m g p.documentId w hw) hng
      rw [hlookup_after p.documentId, hwnone]
      exact hagree g' (by simp [hg']) p hp
    rcases ih (processExhibitionBatch g m origin t now false).store hagree'
      hnd_rest with ⟨ihc, ihs⟩
    have hfin2 : (runChunks m origin now t (g :: gs) []).2 =
        (runChunks m origin now
          (processExhibitionBatch g m origin t now false).store gs []).2 := rfl
    have hfin1 : (runChunks m origin now t (g :: gs) []).1 =
        ((processExhibitionBatch g m origin t now false).counts,
          (processExhibitionBatch g m origin t now false).ranTx) ::
        (runChunks m origin now
          (processExhibitionBatch g m origin t now false).store gs []).1 := rfl
    constructor
    · rw [hfin1]
      simp only [List.map_cons, sumCounts_cons]
      rw [hbc, ihc, List.flatten_cons, refCounts_append]
    · intro k
      rw [hfin2, ihs k, List.flatten_cons, theWriter_append]
      cases hwg : theWriter (storeDates s0) m g k with
      | some w =>
        have hkg : k ∈ g.filterMap (recordId m) :=
          theWriter_mem _ m g k w hwg
        have hwrest : theWriter (storeDates s0) m gs.flatten k = none := by
          cases hw2 : theWriter (storeDates s0) m gs.flatten k with
          | none => rfl
          | some w2 =>
            exfalso
            have hmem2 := theWriter_mem _ m gs.flatten k w2 hw2
            rw [filterMap_flatten_comm] at hmem2
            exact hdisj hkg hmem2
        rw [hwrest]
        dsimp only
        rw [hlookup_after k, hwg]
        cases w with
        | createW p => rfl
        | updateW p =>
          dsimp only
          have hlk : storeLookup t k = storeLookup s0 k := by
            rw [← groupIds_eq] at hkg
            rcases List.mem_map.mp hkg with ⟨q, hq, hqid⟩
            rw [← hqid]
            exact hag_g q hq
          rw [hlk]
      | none =>
        dsimp only
        have hlt : storeLookup (processExhibitionBatch g m origin t now
            false).store k = storeLookup t k := by
          rw [hlookup_after k, hwg]
        cases theWriter (storeDates s0) m gs.flatten k with
        | none => exact hlt
        | some w2 =>
          cases w2 with
          | createW q => rfl
          | updateW q =>
            dsimp only
            cases storeLookup s0 k with
            | some d => rfl
            | none =>
              dsimp only
              exact hlt

theorem newDoc_similar (p : Prepared) (origin : String) (now : Int) :
    docSimilar (newDoc p origin now) (newDocPR p origin now) := by
  refine ⟨rfl, rfl, rfl, rfl, rfl, rfl, rfl, rfl, rfl, rfl, ?_, ?_⟩
  · cases h : dateWrite p.exhibition.startDate with
    | none => right; simp [newDocPR, h]
    | some v => left; simp [newDoc, newDocPR, h]
  · cases h : dateWrite p.exhibition.endDate with
    | none => right; simp [newDocPR, h]
    | some v => left; simp [newDoc, newDocPR, h]

theorem patch_similar (d : Doc) (p : Prepared) (now : Int) :
    docSimilar
      (applyPatch d ⟨dateWrite p.exhibition.startDate,
        dateWrite p.exhibition.endDate, now⟩)
      (applyPatch d ⟨some ((dateWrite p.exhibition.startDate).getD (.str "")),
        some ((dateWrite p.exhibition.endDate).getD (.str "")), now⟩) := by
  refine ⟨rfl, rfl, rfl, rfl, rfl, rfl, rfl, rfl, rfl, rfl, ?_, ?_⟩
  · cases h : dateWrite p.exhibition.startDate with
    | none => right; simp [applyPatch, h]
    | some v => left; simp [applyPatch, h]
  · cases h : dateWrite p.exhibition.endDate with
    | none => right; simp [applyPatch, h]
    | some v => left; simp [applyPatch, h]

/-- Claim C10 (amended): for every input whose derived identities are pairwise
distinct, against a well-formed store (every stored date is an instant or
absent) and with no transaction failing, the per-record and the batched
implementations return the same count tuple, and for every identity the
stores they leave behind either agree exactly or hold documents that agree on
every field except the representation of an absent incoming date (the
per-record engine writes the empty-string marker where the batched engine
omits the field on create and leaves the previous value on update). -/
theorem c10_equivalence (es : List Scraped) (m : MuseumMaps) (origin : String)
    (s : Store) (now : Int) (hwf : wfStore s)
    (hnodup : (es.filterMap (recordId m)).Nodup) :
    (processScrapeResults es m origin s now []).1 =
      (processScrapeResultsPR es m origin s now).1 ∧
    ∀ k,
      storeLookup (processScrapeResults es m origin s now []).2 k =
          storeLookup (processScrapeResultsPR es m origin s now).2 k ∨
      ∃ db dp,
        storeLookup (processScrapeResults es m origin s now []).2 k =
            some db ∧
          storeLookup (processScrapeResultsPR es m origin s now).2 k =
            some dp ∧
          docSimilar db dp := by
  have hlookEq : mapGet (fetchExistingExhibitions s) = storeDates s :=
    funext (fun k => storeDates_fetch s k)
  have hwfM : ∀ k sd ed, mapGet (fetchExistingExhibitions s) k =
      some (sd, ed) → sd.wf = true ∧ ed.wf = true := by
    intro k sd ed h
    rw [hlookEq] at h
    exact hwf k sd ed h
  have hagree0 : ∀ g ∈ chunkList es, ∀ p ∈ (prepPhase m g).1,
      storeLookup s p.documentId = storeLookup s p.documentId :=
    fun _ _ _ _ => rfl
  have hnodup' : (((chunkList es).map
      (fun g => g.filterMap (recordId m))).flatten).Nodup := by
    rw [← filterMap_flatten_comm, chunkList_flatten]
    exact hnodup
  rcases runChunks_char s m origin now hwf (chunkList es) s hagree0 hnodup'
    with ⟨hBc, hBs⟩
  rw [chunkList_flatten] at hBc hBs
  have hPc := runPR_counts (fetchExistingExhibitions s) m origin now hwfM es s
  rw [hlookEq] at hPc
  constructor
  · show sumCounts (((runChunks m origin now s (chunkList es) []).1).map
      (·.1)) = (runPR (fetchExistingExhibitions s) m origin now es s).1
    rw [hBc, hPc]
  · intro k
    have hPs := runPR_store (fetchExistingExhibitions s) m origin now hwfM
      es s k hnodup
    rw [hlookEq] at hPs
    have hBk : storeLookup (processScrapeResults es m origin s now []).2 k =
        storeLookup (runChunks m origin now s (chunkList es) []).2 k := rfl
    have hPk : storeLookup (processScrapeResultsPR es m origin s now).2 k =
        storeLookup (runPR (fetchExistingExhibitions s) m origin now es s).2
          k := rfl
    rw [hBk, hPk, hBs k, hPs]
    cases hw : theWriter (storeDates s) m es k with
    | none => left; rfl
    | some w =>
      cases w with
      | createW p =>
        right
        exact ⟨newDoc p origin now, newDocPR p origin now, rfl, rfl,
          newDoc_similar p origin now⟩
      | updateW p =>
        rcases theWriter_update_look (storeDates s) m es k p hw with
          ⟨sd, ed, hsd⟩
        have hd : ∃ d, storeLookup s k = some d := by
          simp only [storeDates] at hsd
          cases hls : storeLookup s k with
          | none => rw [hls] at hsd; simp at hsd
          | some d => exact ⟨d, rfl⟩
        rcases hd with ⟨d, hls⟩
        rw [hls]
        right
        exact ⟨_, _, rfl, rfl, patch_similar d p now⟩

/-- Claim C10 counterexample: the two implementations do not write the same
document contents nor always the same counts.  (i) For a record with an
absent start date the batched engine omits the field (`missing`) while the
per-record engine writes the `''` marker.  (ii) With 101 duplicate records
the batched engine creates once and then skips (group 2 reads group 1's
write) while the per-record engine, whose existence map is fetched once up
front, creates all 101.  (iii) On a store holding a string-valued date, the
comparator's `TypeError` aborts the batched engine's whole group (2 errors)
but only the single record in the per-record engine (1 created, 1 error). -/
theorem c10_counterexample :
    ((storeLookup (processScrapeResults [⟨"t", "v", none, none, none, none⟩]
        ⟨[("v", "v")], [("v", "mid")]⟩ "scrape" [] 7 []).2 "mid_t").map
      Doc.startDate = some .missing ∧
    (storeLookup (processScrapeResultsPR [⟨"t", "v", none, none, none, none⟩]
        ⟨[("v", "v")], [("v", "mid")]⟩ "scrape" [] 7).2 "mid_t").map
      Doc.startDate = some (.str "") ∧
    (DateVal.missing ≠ DateVal.str "")) ∧
    ((processScrapeResults
        (List.replicate 101 ⟨"t", "v", none, none, none, none⟩)
        ⟨[("v", "v")], [("v", "mid")]⟩ "scrape" [] 7 []).1 = ⟨100, 0, 1, 0⟩ ∧
    (processScrapeResultsPR
        (List.replicate 101 ⟨"t", "v", none, none, none, none⟩)
        ⟨[("v", "v")], [("v", "mid")]⟩ "scrape" [] 7).1 = ⟨101, 0, 0, 0⟩ ∧
    ((⟨100, 0, 1, 0⟩ : Counts) ≠ ⟨101, 0, 0, 0⟩)) ∧
    ((processScrapeResults [⟨"t", "v", some "2024-01-01", none, none, none⟩,
        ⟨"u", "v", none, none, none, none⟩]
        ⟨[("v", "v")], [("v", "mid")]⟩ "scrape"
        [("mid_t", ⟨"t", "v", "mid", .str "", .missing, "pending", "scrape",
          false, false, 3, 3, none⟩)] 7 []).1 = ⟨0, 0, 0, 2⟩ ∧
    (processScrapeResultsPR [⟨"t", "v", some "2024-01-01", none, none, none⟩,
        ⟨"u", "v", none, none, none, none⟩]
        ⟨[("v", "v")], [("v", "mid")]⟩ "scrape"
        [("mid_t", ⟨"t", "v", "mid", .str "", .missing, "pending", "scrape",
          false, false, 3, 3, none⟩)] 7).1 = ⟨1, 0, 0, 1⟩ ∧
    ((⟨0, 0, 0, 2⟩ : Counts) ≠ ⟨1, 0, 0, 1⟩)) := by decide

theorem c10_equivalence_witness :
    wfStore [] ∧
    ([(⟨"t", "v", none, none, none, none⟩ : Scraped)].filterMap
      (recordId ⟨[("v", "v")], [("v", "mid")]⟩)).Nodup ∧
    ((processScrapeResults [⟨"t", "v", none, none, none, none⟩]
        ⟨[("v", "v")], [("v", "mid")]⟩ "scrape" [] 7 []).1 =
      (processScrapeResultsPR [⟨"t", "v", none, none, none, none⟩]
        ⟨[("v", "v")], [("v", "mid")]⟩ "scrape" [] 7).1 ∧
    ∀ k,
      storeLookup (processScrapeResults [⟨"t", "v", none, none, none, none⟩]
          ⟨[("v", "v")], [("v", "mid")]⟩ "scrape" [] 7 []).2 k =
          storeLookup (processScrapeResultsPR
            [⟨"t", "v", none, none, none, none⟩]
            ⟨[("v", "v")], [("v", "mid")]⟩ "scrape" [] 7).2 k ∨
      ∃ db dp,
        storeLookup (processScrapeResults [⟨"t", "v", none, none, none, none⟩]
            ⟨[("v", "v")], [("v", "mid")]⟩ "scrape" [] 7 []).2 k = some db ∧
          storeLookup (processScrapeResultsPR
            [⟨"t", "v", none, none, none, none⟩]
            ⟨[("v", "v")], [("v", "mid")]⟩ "scrape" [] 7).2 k = some dp ∧
          docSimilar db dp) :=
  ⟨(fun _ _ _ h => nomatch h),
    ⟨by decide,
      c10_equivalence [⟨"t", "v", none, none, none, none⟩]
        ⟨[("v", "v")], [("v", "mid")]⟩ "scrape" [] 7
        (fun _ _ _ h => nomatch h) (by decide)⟩⟩
